import Mathlib

/-!
# PubSubX client: framing, handshake and message gating

A shallow embedding of `src/Client.cpp` / `src/Client.hpp`.

* A `std::string` is a list of characters (`Str`).
* `std::set<string>` is a `Finset Str`, `std::deque<string>` a `List Str`
  whose head is the front of the queue.
* A member function becomes a function on the record `Client` of the data
  members it reads or writes; what it prints is returned as a list of `Output`.
* An operation the C++ standard leaves undefined (indexing an empty vector or
  deque) or that throws (`stoi`) yields `none`.
-/

namespace PubSubX

/-- A `std::string`. -/
abbrev Str := List Char

/-! ## Client.hpp: constants -/

/-- `#define MAX_NAME_LEN 64` -/
def MAX_NAME_LEN : Nat := 64

/-- `#define BUFFER_SIZE 1024` -/
def BUFFER_SIZE : Nat := 1024

/-- `#define MAX_MESSAGE_SIZE ((10)*(BUFFER_SIZE))` -/
def MAX_MESSAGE_SIZE : Nat := 10 * BUFFER_SIZE

/-- `#define EOM "\n\nx"`, the end of message string. -/
def EOM : Str := ['\n', '\n', 'x']

/-! ## Client.cpp: error and info tables -/

/-- `enum errors_enum` (without the `MAX_ERRORS` sentinel). -/
inductive Errors
  | INIT_FAIL | WRONG_PORT | WRONG_NAME | NAME_TAKEN | CONN_FAIL | SEL_FAIL
  | MSG_TOO_LONG | CONN_LOST | CONN_DOWN | NOT_CONN | WRONG_TOPIC
  | EMPTY_TOPIC | WRONG_CMD | NO_RSP | UNKNOWN_RSP | EXCEPTION
  deriving DecidableEq, Repr

/-- `enum infos_enum` (without the `MAX_INFOS` sentinel). -/
inductive Infos
  | CONN_ACC | ALR_CONN | ALR_SUB | NOT_SUB | CONN_RESTORED
  deriving DecidableEq, Repr

/-- What the client writes to `cout`: a call of `print_error(errnum, msg)`, a call of
`print_info(infonum, msg)`, or text written directly. -/
inductive Output
  | error (errnum : Errors) (msg : Str)
  | info (infonum : Infos) (msg : Str)
  | text (s : Str)
  deriving DecidableEq, Repr

/-- `Client::print_error(errnum, msg = "")` -/
def print_error (errnum : Errors) (msg : Str := []) : Output := Output.error errnum msg

/-- `Client::print_info(infonum, msg = "")` -/
def print_info (infonum : Infos) (msg : Str := []) : Output := Output.info infonum msg

/-! ## The data members of `class Client` -/

/-- The data members of `Client` that the modelled functions read or write
(sockets, the thread handle and the mutex are left out). -/
structure Client where
  /-- `int m_server_port` -/
  m_server_port : Nat
  /-- `string m_command` -/
  m_command : Str
  /-- `string m_arg1` -/
  m_arg1 : Str
  /-- `string m_arg2` -/
  m_arg2 : Str
  /-- `bool m_connected` -/
  m_connected : Bool
  /-- `string m_name` -/
  m_name : Str
  /-- `set<string> m_topics` -/
  m_topics : Finset Str
  /-- `deque<string> m_out_messages` -/
  m_out_messages : List Str
  /-- `string m_receive_stream` -/
  m_receive_stream : Str

/-! ## Outbound chunking -/

/-- `Client::get_send_chunk(bool* last)`: the returned chunk, the value stored in `*last`
and the client afterwards. `m_out_messages[0]` on an empty deque is undefined: `none`. -/
def get_send_chunk (c : Client) : Option (Str × Bool × Client) :=
  let l_maxsz := BUFFER_SIZE - EOM.length
  match c.m_out_messages with
  | [] => none
  | front :: rest =>
    if front.length > l_maxsz then
      -- l_chunk = m_out_messages[0].substr(0, l_maxsz); m_out_messages[0].erase(0, l_maxsz);
      some (front.take l_maxsz ++ EOM, false,
        { c with m_out_messages := front.drop l_maxsz :: rest })
    else
      -- l_chunk = m_out_messages[0]; m_out_messages.pop_front();
      -- if (m_out_messages.size() == 0) *last = true;
      some (front ++ EOM, decide (rest.length = 0), { c with m_out_messages := rest })

/-- `Client::socket_write`: the bytes handed to `send`, the returned flag and the client
afterwards. -/
def socket_write (c : Client) : Option (Str × Bool × Client) := get_send_chunk c

/-- The body of a wire chunk: the chunk without its last `strlen(EOM)` characters. -/
def chunkBody (chunk : Str) : Str := chunk.take (chunk.length - EOM.length)

/-- Calling `get_send_chunk` again and again until `m_out_messages` is empty, at most
`fuel` times: the chunks in the order they were returned, and the client afterwards. -/
def sendAll : Nat → Client → List Str × Client
  | 0, c => ([], c)
  | fuel + 1, c =>
    if c.m_out_messages.length = 0 then ([], c)
    else
      match get_send_chunk c with
      | none => ([], c)
      | some (chunk, _, c') => (chunk :: (sendAll fuel c').1, (sendAll fuel c').2)

/-! ## Helper functions of Client.cpp -/

/-- `std::search(first, last, delim.begin(), delim.end())` on the range `s`: the offset of
the first occurrence of `delim` in `s`, or `s.length` (the iterator `last`) when there is
none. -/
def search : Str → Str → Nat
  | [], _ => 0
  | c :: cs, delim => if delim.isPrefixOf (c :: cs) then 0 else search cs delim + 1

/-- `std::string::find(str)`: the position of the first occurrence, `none` for `npos`. -/
def find (s str : Str) : Option Nat :=
  if str.isPrefixOf (s.drop (search s str)) then some (search s str) else none

/-- The `while (true)` loop of `split`; `s` is the range from `substart` to `s.end()`.
Every turn but the last moves `substart` forward by at least `delim.size()`, so
`s.length + 1` turns are enough (`splitLoop_fuel`). -/
def splitLoop (delim : Str) (keep_empty : Bool) : Nat → Str → List Str
  | 0, _ => []
  | fuel + 1, s =>
    let subend := search s delim
    let temp := s.take subend
    let result := if keep_empty || !temp.isEmpty then [temp] else []
    if subend = s.length then result
    else result ++ splitLoop delim keep_empty fuel (s.drop (subend + delim.length))

/-- `vector<string> split(const string& s, const string& delim, const bool keep_empty = false)` -/
def split (s delim : Str) (keep_empty : Bool := false) : List Str :=
  if delim.isEmpty then [s] else splitLoop delim keep_empty (s.length + 1) s

/-- `inline bool ends_with(std::string const& value, std::string const& ending)` -/
def ends_with (value ending : Str) : Bool :=
  if ending.length > value.length then false
  else ending.reverse.isPrefixOf value.reverse

/-! ## Inbound processing -/

/-- `Client::print_received_message(string msg)`: what is printed and the client
afterwards. `word_list[0]` on an empty vector is undefined: `none`. -/
def print_received_message (c : Client) (msg : Str) : Option (List Output × Client) :=
  let word_list := split msg " ".toList
  match word_list with
  | [] => none
  | topic :: _ =>
    let data := if word_list.length > 1 then word_list.getD 1 [] else []
    if topic ∈ c.m_topics then
      some ([Output.text ("Topic: ".toList ++ topic ++ " Data: ".toList ++ data ++ "\n".toList)], c)
    else
      some ([print_error Errors.WRONG_TOPIC], c)

/-- The loop `for (i = 0; i <= l_last_msg; i++)` of `process_message_chunk` over the
messages `l_msg_list[0 .. l_last_msg]`. -/
def print_messages (c : Client) : List Str → Option (List Output × Client)
  | [] => some ([], c)
  | msg :: rest =>
    if msg = [] then print_messages c rest
    else
      match print_received_message c msg with
      | none => none
      | some (out, c') =>
        match print_messages c' rest with
        | none => none
        | some (outs, c'') => some (out ++ outs, c'')

/-- `Client::process_message_chunk(char* msg_chunk, int size, bool from_restore)`.
`msg_chunk` is the content of the C string passed in (`string(msg_chunk)`); `size` is not
read by the code. `l_msg_list[l_last_msg]` on an empty vector is undefined: `none`. -/
def process_message_chunk (c : Client) (msg_chunk : Str) (from_restore : Bool) :
    Option (List Output × Client) :=
  let stream := c.m_receive_stream ++ msg_chunk
  -- if (m_receive_stream.find(EOM)): a position converted to bool, false only for 0
  if find stream EOM ≠ some 0 then
    let l_msg_list := split stream EOM
    let rest : Option (Str × List Str) :=
      if ends_with stream EOM then some ([], l_msg_list)
      else
        match l_msg_list.getLast? with
        | none => none
        | some last => some (last, l_msg_list.dropLast)
    match rest with
    | none => none
    | some (stream', msgs) =>
      match print_messages { c with m_receive_stream := stream' } msgs with
      | none => none
      | some (outs, c') =>
        some ((if from_restore then [] else [Output.text "\n".toList]) ++ outs ++
          (if from_restore then [] else [Output.text "Enter command or (-h): ".toList]), c')
  else
    some ([], { c with m_receive_stream := stream })

/-- Feeding the chunks one after another to `process_message_chunk` with
`from_restore = false` (the call made by `socket_server_msg` for a block read from the
server): everything printed, and the client afterwards. -/
def feed (c : Client) : List Str → Option (List Output × Client)
  | [] => some ([], c)
  | chunk :: chunks =>
    match process_message_chunk c chunk false with
    | none => none
    | some (out, c') =>
      match feed c' chunks with
      | none => none
      | some (outs, c'') => some (out ++ outs, c'')

/-! ## Connect -/

/-- `std::stoi` on a string that starts with a decimal digit (leading blanks and signs are
not modelled): the value of the leading digits; `none` when the call throws, that is when
there is no leading digit (`invalid_argument`) or the value does not fit an `int`
(`out_of_range`). -/
def stoi (s : Str) : Option Nat :=
  let digits := s.takeWhile Char.isDigit
  let value := digits.foldl (fun acc d => 10 * acc + (d.toNat - '0'.toNat)) 0
  if digits.isEmpty then none
  else if value > 2147483647 then none
  else some value

/-- `Client::connect_args_check`: the returned flag and what is printed; `none` when
`stoi` throws. -/
def connect_args_check (c : Client) : Option (Bool × List Output) :=
  -- if (!(m_arg1.find_first_not_of("0123456789") == string::npos))
  if !(c.m_arg1.all Char.isDigit) then some (false, [print_error Errors.WRONG_PORT])
  else
    match stoi c.m_arg1 with
    | none => none
    | some l_port =>
      if l_port < 1024 || l_port > 65535 then some (false, [print_error Errors.WRONG_PORT])
      else if c.m_arg2 = [] || c.m_arg2.length > MAX_NAME_LEN then
        some (false, [print_error Errors.WRONG_NAME])
      else some (true, [])

/-- `Client::connect_accept` (the start of the socket thread is left out). -/
def connect_accept (c : Client) : Option (List Output × Client) :=
  match stoi c.m_arg1 with
  | none => none
  | some port =>
    some ([print_info Infos.CONN_ACC],
      { c with m_server_port := port, m_name := c.m_arg2, m_connected := true,
               m_receive_stream := [] })

/-- `Client::connect_restore(char* str)` (the start of the socket thread is left out);
`str` is the content of the C string passed in. -/
def connect_restore (c : Client) (str : Str) : Option (List Output × Client) :=
  match stoi c.m_arg1 with
  | none => none
  | some port =>
    let c1 : Client :=
      { c with m_server_port := port, m_name := c.m_arg2, m_connected := true,
               m_receive_stream := [] }
    let l_message := str
    let l_msg_list := split l_message EOM
    -- Second message has subscribed topics
    let c2 : Client :=
      if l_msg_list.length > 1 then
        { c1 with m_topics :=
            (split (l_msg_list.getD 1 []) " ".toList).foldl (fun t w => insert w t) c1.m_topics }
      else c1
    -- All the other messages are missed messages on subscribed topics
    if l_msg_list.length > 2 then
      let l_prev_msg_size :=
        (l_msg_list.getD 0 []).length + (l_msg_list.getD 1 []).length + 2 * EOM.length
      match process_message_chunk c2 (l_message.drop l_prev_msg_size) true with
      | none => none
      | some (outs, c3) => some (print_info Infos.CONN_RESTORED :: outs, c3)
    else some ([print_info Infos.CONN_RESTORED], c2)

/-- What the network does during `connect_server`: `connect` fails, `send` does not send
the whole message, `read` returns `0` or `-1`, or `read` fills `l_buffer` with a response
(given as the C string in `l_buffer`). -/
inductive Handshake
  | connect_fails
  | send_fails
  | read_fails
  | response (l_buffer : Str)

/-- `Client::connect_server` (socket set-up and tear-down are left out). -/
def connect_server (c : Client) (net : Handshake) : Option (List Output × Client) :=
  match connect_args_check c with
  | none => none
  | some (false, out) => some (out, c)
  | some (true, out) =>
    match net with
    | Handshake.connect_fails => some (out ++ [print_error Errors.CONN_FAIL], c)
    | Handshake.send_fails => some (out ++ [print_error Errors.CONN_FAIL], c)
    | Handshake.read_fails => some (out ++ [print_error Errors.CONN_FAIL], c)
    | Handshake.response l_buffer =>
      if "OK".toList.isPrefixOf l_buffer then
        match connect_accept c with
        | none => none
        | some (o, c') => some (out ++ o, c')
      else if "RESTORED".toList.isPrefixOf l_buffer then
        match connect_restore c l_buffer with
        | none => none
        | some (o, c') => some (out ++ o, c')
      else if "ERROR".toList.isPrefixOf l_buffer then
        some (out ++ [print_error Errors.NAME_TAKEN], c)
      else some (out ++ [print_error Errors.UNKNOWN_RSP], c)

/-- The byte stream that carries the messages `msgs`: every message followed by the
delimiter `EOM`, all concatenated. -/
def wireStream (msgs : List Str) : Str := (msgs.map (fun m => m ++ EOM)).flatten

/-- The topic `print_received_message` takes from a message: `word_list[0]`, the first
word (`""` stands for a message without words). -/
def topicOf (msg : Str) : Str := (split msg " ".toList).headD []

/-- The data `print_received_message` takes from a message: `word_list[1]`, the second
word, or `""` when there is none. -/
def dataOf (msg : Str) : Str := (split msg " ".toList).getD 1 []

/-- What is shown for a received message under a topic set: the line
`Topic: <topic> Data: <data>` when the topic is in the set, the `WRONG_TOPIC` error
otherwise. -/
def delivery (topics : Finset Str) (msg : Str) : Output :=
  if topicOf msg ∈ topics then
    Output.text ("Topic: ".toList ++ topicOf msg ++ " Data: ".toList ++ dataOf msg ++ "\n".toList)
  else print_error Errors.WRONG_TOPIC

/-- A client with the given connection flag, topics, queue and receive stream, and
`CONNECT` arguments `m_arg1`, `m_arg2`. -/
def mkClient (connected : Bool) (topics : Finset Str) (queue : List Str) (stream : Str)
    (arg1 arg2 : Str) : Client :=
  { m_server_port := 0, m_command := "CONNECT".toList, m_arg1 := arg1, m_arg2 := arg2,
    m_connected := connected, m_name := [], m_topics := topics, m_out_messages := queue,
    m_receive_stream := stream }

/-! ## Commands -/

/-- `const vector<string> commands` of Client.hpp. -/
def commands : List Str :=
  ["-H".toList, "CONNECT".toList, "DISCONNECT".toList, "PUBLISH".toList,
   "SUBSCRIBE".toList, "UNSUBSCRIBE".toList]

/-- `string toUpper(string* input)`: the content of `*input` after the call. The body
applies `::toupper` to every character in place and then runs off the end of a function
declared to return a `string`, without a `return` statement: every call is undefined, so
the result is `none` for every input. -/
def toUpper (_input : Str) : Option Str := none

/-- What a command function does besides changing the client: what it prints, and the
payloads it passes to `send` on `m_msg_in_sock` and on `m_close_in_sock`, the two sockets
that lead to the socket loop. -/
structure Effects where
  /-- Written to `cout`. -/
  out : List Output
  /-- `send(m_msg_in_sock, ...)` -/
  msg_in : List Str
  /-- `send(m_close_in_sock, ...)` -/
  close_in : List Str
  deriving DecidableEq, Repr

/-- `Client::print_help` -/
def print_help : List Output :=
  [Output.text "client - list of possible client commands:\n".toList,
   Output.text
     "CONNECT <port> <client_name>    : connect to PubSubX server at specified port with client name\n".toList,
   Output.text
     "DISCONNECT                      : disconect from to PubSubX server, all subscriptions will be removed\n".toList,
   Output.text
     "PUBLISH <topic_name> <message>  : publish message to topic on PubSubX server\n".toList,
   Output.text
     "SUBSCRIBE <topic>               : subscribe client to a topic on a PubSubX server\n".toList,
   Output.text
     "UNSUBSCRIBE <topic_name>        : remove subscription from a topic on PubSubX server\n".toList]

/-- `Client::command_parse(string input)`: the returned flag and the client afterwards.
`assert(input != "")` fails on the empty line, `list[0]` on an empty vector is undefined,
and so is the call `toUpper(&m_command)` that follows it: `none`. -/
def command_parse (c : Client) (input : Str) : Option (Bool × Client) :=
  if input = [] then none
  else
    let list := split input " ".toList
    match list with
    | [] => none
    | first :: _ =>
      -- m_command = list[0]; toUpper(&m_command);
      match toUpper first with
      | none => none
      | some m_command =>
        let c1 : Client := { c with m_command := m_command }
        -- Check if command is in commands vector
        if c1.m_command ∉ commands then some (false, c1)
        else
          some (true,
            { c1 with m_arg1 := if list.length ≥ 2 then list.getD 1 [] else [],
                      m_arg2 := if list.length ≥ 3 then list.getD 2 [] else [] })

/-- `Client::command_disconnect` -/
def command_disconnect (c : Client) : Effects × Client :=
  ({ out := [], msg_in := [], close_in := ["DISCONNECT".toList] }, { c with m_topics := ∅ })

/-- `Client::command_publish` -/
def command_publish (c : Client) : Effects × Client :=
  if c.m_arg1 = [] then
    ({ out := [print_error Errors.EMPTY_TOPIC], msg_in := [], close_in := [] }, c)
  else
    ({ out := [], msg_in := ["PUBLISH ".toList ++ c.m_arg1 ++ " ".toList ++ c.m_arg2],
       close_in := [] }, c)

/-- `Client::command_subscribe` -/
def command_subscribe (c : Client) : Effects × Client :=
  if c.m_arg1 = [] then
    ({ out := [print_error Errors.EMPTY_TOPIC], msg_in := [], close_in := [] }, c)
  else if c.m_arg1 ∉ c.m_topics then
    -- Check that not already subscribed
    ({ out := [], msg_in := ["SUBSCRIBE ".toList ++ c.m_arg1], close_in := [] },
      { c with m_topics := insert c.m_arg1 c.m_topics })
  else
    ({ out := [print_info Infos.ALR_SUB c.m_arg1], msg_in := [], close_in := [] }, c)

/-- `Client::command_unsubscribe` -/
def command_unsubscribe (c : Client) : Effects × Client :=
  if c.m_arg1 = [] then
    ({ out := [print_error Errors.EMPTY_TOPIC], msg_in := [], close_in := [] }, c)
  else if c.m_arg1 ∈ c.m_topics then
    -- Check that already subscribed
    ({ out := [], msg_in := ["UNSUBSCRIBE ".toList ++ c.m_arg1], close_in := [] },
      { c with m_topics := c.m_topics.erase c.m_arg1 })
  else
    ({ out := [print_info Infos.NOT_SUB c.m_arg1], msg_in := [], close_in := [] }, c)

/-- `Client::command_process`; the final `assert(0)` gives `none`. -/
def command_process (c : Client) : Option (Effects × Client) :=
  if c.m_command = "DISCONNECT".toList then some (command_disconnect c)
  else if c.m_command = "PUBLISH".toList then some (command_publish c)
  else if c.m_command = "SUBSCRIBE".toList then some (command_subscribe c)
  else if c.m_command = "UNSUBSCRIBE".toList then some (command_unsubscribe c)
  else none

/-- One turn of the `while (1)` loop of `Client::command_loop`, for the line `input` that
`getline` returns and for what the network does if the turn reaches `connect_server`. -/
def command_loop_turn (c : Client) (input : Str) (net : Handshake) :
    Option (Effects × Client) :=
  let ask := Output.text "Enter command or (-h): ".toList
  if input = "\n".toList then some ({ out := [ask], msg_in := [], close_in := [] }, c)
  else
    match command_parse c input with
    | none => none
    | some (false, c1) =>
      some ({ out := [ask, print_error Errors.WRONG_CMD], msg_in := [], close_in := [] }, c1)
    | some (true, c1) =>
      if c1.m_command = "-H".toList then
        some ({ out := ask :: print_help, msg_in := [], close_in := [] }, c1)
      else if !c1.m_connected then
        if c1.m_command = "CONNECT".toList then
          match connect_server c1 net with
          | none => none
          | some (o, c2) => some ({ out := ask :: o, msg_in := [], close_in := [] }, c2)
        else
          some ({ out := [ask, print_error Errors.NOT_CONN], msg_in := [], close_in := [] }, c1)
      else if c1.m_command = "CONNECT".toList then
        some ({ out := [ask, print_info Infos.ALR_CONN], msg_in := [], close_in := [] }, c1)
      else
        match command_process c1 with
        | none => none
        | some (e, c2) => some ({ e with out := ask :: e.out }, c2)

/-! ## The socket loop -/

/-- `Client::socket_command_msg`; `l_buffer` is the C string that `recv` leaves in the
buffer. -/
def socket_command_msg (c : Client) (l_buffer : Str) : Client :=
  { c with m_out_messages := c.m_out_messages ++ [l_buffer] }

/-- `Client::socket_close_msg`: the bytes sent to the server (the shutdown and close of
the socket are left out). -/
def socket_close_msg : Str := "DISCONNECT".toList ++ EOM

/-- `Client::socket_server_msg`; `l_buffer` is the C string that `recv` leaves in the
buffer, empty when the peer has closed the connection. -/
def socket_server_msg (c : Client) (l_buffer : Str) : Option (List Output × Client) :=
  if l_buffer = [] then
    some ([Output.text "\n".toList, print_error Errors.CONN_DOWN], c)
  else process_message_chunk c l_buffer false

/-- What `select` reports in one turn of the loop of `socket_loop`, and what the reads
that follow return. -/
structure Ready where
  /-- `l_ready == -1` -/
  select_fails : Bool
  /-- `FD_ISSET(m_server_socket, &l_errorfds)` -/
  server_error : Bool
  /-- `FD_ISSET(m_server_socket, &l_readfds)`, with the C string read from the server. -/
  server_msg : Option Str
  /-- `FD_ISSET(m_msg_out_sock, &l_readfds)`, with the C string read from the command loop. -/
  command_msg : Option Str
  /-- `FD_ISSET(m_close_out_sock, &l_readfds)` -/
  close_msg : Bool
  /-- Whether `select` leaves `m_server_socket` in `l_writefds` when it was set before. -/
  server_writable : Bool

/-- The result of one turn of the loop of `socket_loop`. -/
structure LoopTurn where
  /-- Written to `cout`. -/
  out : List Output
  /-- The payloads passed to `send` on `m_server_socket`. -/
  to_server : List Str
  /-- Whether the loop goes on (`false` after a `return`). -/
  running : Bool
  /-- Whether `m_server_socket` is in `l_writefds` at the end of the turn. -/
  l_writefds : Bool
  /-- The client afterwards. -/
  client : Client

/-- One turn of the `while (1)` loop of `Client::socket_loop`, entered with
`m_server_socket` in `l_writefds` or not. `none`: a step of the turn is undefined. -/
def socket_loop_turn (c : Client) (l_writefds : Bool) (r : Ready) : Option LoopTurn :=
  -- Connection down
  if r.select_fails then
    some { out := [Output.text "Enter command or (-h):".toList], to_server := [],
           running := false, l_writefds := l_writefds, client := { c with m_connected := false } }
  -- Error on server socket
  else if r.server_error then
    some { out := [print_error Errors.CONN_LOST], to_server := [], running := false,
           l_writefds := l_writefds, client := { c with m_connected := false } }
  else
    -- Input message from server
    let afterServer : Option (List Output × Client) :=
      match r.server_msg with
      | none => some ([], c)
      | some l_buffer => socket_server_msg c l_buffer
    match afterServer with
    | none => none
    | some (out1, c1) =>
      -- Input message from command loop
      let c2 : Client :=
        match r.command_msg with
        | none => c1
        | some l_buffer => socket_command_msg c1 l_buffer
      let writefds : Bool := (l_writefds && r.server_writable) || r.command_msg.isSome
      -- Close (disconnect commands) message from command loop
      if r.close_msg then
        some { out := out1, to_server := [socket_close_msg], running := false,
               l_writefds := writefds, client := { c2 with m_connected := false } }
      -- Server ready to receive message
      else if writefds then
        match socket_write c2 with
        | none => none
        | some (l_chunk, l_last, c3) =>
          some { out := out1, to_server := [l_chunk], running := true,
                 l_writefds := !l_last, client := c3 }
      else
        some { out := out1, to_server := [], running := true, l_writefds := false,
               client := c2 }

/-- Nothing is ready: the value of `Ready` from which the events below are built. -/
def Ready.idle : Ready :=
  { select_fails := false, server_error := false, server_msg := none, command_msg := none,
    close_msg := false, server_writable := true }

/-! ## Words of a message, told without `split` -/

/-- The first blank-separated word of a string: what follows its leading blanks, up to the
next blank or the end (empty when the string has no word). -/
def firstWord (s : Str) : Str := (s.dropWhile (fun ch => ch == ' ')).takeWhile (fun ch => ch != ' ')

/-- What follows the first blank-separated word of a string. -/
def afterFirstWord (s : Str) : Str :=
  (s.dropWhile (fun ch => ch == ' ')).dropWhile (fun ch => ch != ' ')

/-- The second blank-separated word of a string (empty when there is none). -/
def secondWord (s : Str) : Str := firstWord (afterFirstWord s)

/-! ## The framing part of `process_message_chunk` -/

/-- The framing part of `process_message_chunk`, that is everything but the printing: the
receive stream after the pass, and the messages the loop hands to
`print_received_message`, in order (`l_msg_list[0 .. l_last_msg]` without the empty
strings the loop skips). `none`: `l_msg_list[l_last_msg]` on an empty vector.
`process_message_chunk_frames` states how `process_message_chunk` is made of it. -/
def frame_chunk (m_receive_stream msg_chunk : Str) : Option (Str × List Str) :=
  let stream := m_receive_stream ++ msg_chunk
  if find stream EOM ≠ some 0 then
    let l_msg_list := split stream EOM
    if ends_with stream EOM then some ([], l_msg_list.filter (fun m => !m.isEmpty))
    else
      match l_msg_list.getLast? with
      | none => none
      | some last => some (last, l_msg_list.dropLast.filter (fun m => !m.isEmpty))
  else some (stream, [])

/-- The framing part of `feed`: the receive stream after all chunks, and all messages
handed to `print_received_message`, in order. -/
def feed_frames (m_receive_stream : Str) : List Str → Option (Str × List Str)
  | [] => some (m_receive_stream, [])
  | chunk :: chunks =>
    match frame_chunk m_receive_stream chunk with
    | none => none
    | some (stream', msgs) =>
      match feed_frames stream' chunks with
      | none => none
      | some (stream'', msgs') => some (stream'', msgs ++ msgs')

/-- What `process_message_chunk` prints for the messages themselves: its output without
the newline and the prompt it puts around the messages of a pass. -/
def deliveries (outs : List Output) : List Output :=
  outs.filter (fun o =>
    decide (o ≠ Output.text "\n".toList) && decide (o ≠ Output.text "Enter command or (-h): ".toList))

end PubSubX

namespace PubSubX

/-! ## Outbound chunking -/

theorem chunkBody_append_EOM (body : Str) : chunkBody (body ++ EOM) = body := by
  simp [chunkBody]

theorem sendAll_of_empty (fuel : Nat) (c : Client) (h : c.m_out_messages = []) :
    sendAll fuel c = ([], c) := by
  cases fuel <;> simp [sendAll, h]

theorem sendAll_short (fuel : Nat) (c : Client) (m : Str) (h : c.m_out_messages = [m])
    (hm : m.length ≤ 1021) :
    sendAll (fuel + 1) c = ([m ++ EOM], { c with m_out_messages := [] }) := by
  have hle : ¬ m.length > BUFFER_SIZE - EOM.length := by
    simpa [BUFFER_SIZE, EOM] using hm
  simp [sendAll, get_send_chunk, h, hle, sendAll_of_empty]

theorem sendAll_long (fuel : Nat) (c : Client) (m : Str) (h : c.m_out_messages = [m])
    (hm : 1021 < m.length) :
    sendAll (fuel + 1) c =
      ((m.take 1021 ++ EOM) :: (sendAll fuel { c with m_out_messages := [m.drop 1021] }).1,
        (sendAll fuel { c with m_out_messages := [m.drop 1021] }).2) := by
  have h1021 : BUFFER_SIZE - EOM.length = 1021 := by decide
  simp [sendAll, get_send_chunk, h, h1021, hm]

theorem sendAll_single (fuel : Nat) : ∀ (c : Client) (m : Str), c.m_out_messages = [m] →
    (m.length + 1020) / 1021 ≤ fuel → 1 ≤ fuel →
    (sendAll fuel c).2 = { c with m_out_messages := [] } ∧
    (sendAll fuel c).1.length = max 1 ((m.length + 1020) / 1021) ∧
    ((sendAll fuel c).1.map chunkBody).flatten = m ∧
    ∀ chunk ∈ (sendAll fuel c).1, chunk = chunkBody chunk ++ EOM ∧
      (chunkBody chunk).length ≤ 1021 := by
  induction fuel with
  | zero => intro c m _ _ h1; omega
  | succ n ih =>
    intro c m hq hfuel _
    by_cases hm : m.length ≤ 1021
    · rw [sendAll_short n c m hq hm]
      refine ⟨rfl, ?_, by simp [chunkBody_append_EOM], ?_⟩
      · simp only [List.length_singleton]
        omega
      · intro chunk hc
        simp only [List.mem_singleton] at hc
        subst hc
        simp [chunkBody_append_EOM, hm]
    · have hm' : 1021 < m.length := by omega
      rw [sendAll_long n c m hq hm']
      have hlen : (m.drop 1021).length = m.length - 1021 := by simp
      obtain ⟨h1, h2, h3, h4⟩ := ih { c with m_out_messages := [m.drop 1021] } (m.drop 1021) rfl
        (by rw [hlen]; omega) (by omega)
      refine ⟨h1, ?_, ?_, ?_⟩
      · simp only [List.length_cons, h2, hlen]
        omega
      · simp only [List.map_cons, List.flatten_cons, h3, chunkBody_append_EOM,
          List.take_append_drop]
      · intro chunk hc
        rcases List.mem_cons.mp hc with rfl | hc
        · simp [chunkBody_append_EOM]
        · exact h4 chunk hc

theorem sendAll_5014 (fuel : Nat) (c : Client) (m : Str) (hq : c.m_out_messages = [m])
    (hlen : m.length = 5014) (hfuel : 5 ≤ fuel) :
    (sendAll fuel c).1.map (fun chunk => (chunkBody chunk).length) =
      [1021, 1021, 1021, 1021, 930] := by
  obtain ⟨k, rfl⟩ : ∃ k, fuel = k + 5 := ⟨fuel - 5, by omega⟩
  rw [sendAll_long _ c m hq (by omega)]
  rw [sendAll_long _ _ (m.drop 1021) rfl (by simp; omega)]
  rw [sendAll_long _ _ ((m.drop 1021).drop 1021) rfl (by simp; omega)]
  rw [sendAll_long _ _ (((m.drop 1021).drop 1021).drop 1021) rfl (by simp; omega)]
  rw [sendAll_short _ _ ((((m.drop 1021).drop 1021).drop 1021).drop 1021) rfl (by simp; omega)]
  simp [chunkBody_append_EOM, hlen]

/-! ## Framing: `search`, `split` and `ends_with` on delimiter-framed streams -/

/-- The loop of `split` never runs out of turns: with a non-empty delimiter, every fuel
above the length of the range gives the result of `split`. -/
theorem splitLoop_fuel (delim : Str) (keep_empty : Bool) (hd : delim ≠ []) :
    ∀ fuel s, s.length < fuel →
      splitLoop delim keep_empty fuel s = splitLoop delim keep_empty (s.length + 1) s := by
  intro fuel
  induction fuel using Nat.strong_induction_on with
  | _ fuel ih =>
    intro s hs
    cases fuel with
    | zero => omega
    | succ n =>
      rw [splitLoop, splitLoop]
      by_cases hbreak : search s delim = s.length
      · simp only [hbreak, if_true]
      · simp only [if_neg hbreak]
        have hdl : 0 < delim.length := List.length_pos.mpr hd
        have hspos : 0 < s.length := by
          cases s with
          | nil => exact absurd rfl hbreak
          | cons a l => simp
        have hlen : (s.drop (search s delim + delim.length)).length < s.length := by
          rw [List.length_drop]
          omega
        rw [ih n (Nat.lt_succ_self n) _ (by omega), ih s.length hs _ hlen]

theorem EOM_not_isPrefixOf_cons (a : Char) (f rest : Str) (hf : ¬ EOM <:+: a :: f) :
    EOM.isPrefixOf ((a :: f) ++ EOM ++ rest) = false := by
  match f, hf with
  | [], _ =>
    by_cases h : a = '\n' <;> simp [EOM, List.isPrefixOf, h]
  | [b], _ =>
    by_cases h : a = '\n' <;> simp [EOM, List.isPrefixOf, h]
  | b :: d :: f', hf =>
    by_cases h : EOM.isPrefixOf ((a :: b :: d :: f') ++ EOM ++ rest) = true
    · exfalso
      apply hf
      simp only [EOM, List.cons_append, List.isPrefixOf, Bool.and_eq_true, beq_iff_eq,
        and_true] at h
      obtain ⟨h1, h2, h3⟩ := h
      subst h1 h2 h3
      exact ⟨[], f', rfl⟩
    · exact Bool.eq_false_iff.mpr h

theorem not_infix_tail (a : Char) (f : Str) (hf : ¬ EOM <:+: a :: f) : ¬ EOM <:+: f :=
  fun h => hf (h.trans (List.suffix_cons a f).isInfix)

/-- In `f ++ EOM ++ rest` with `f` free of the delimiter, `search` stops at the end of `f`. -/
theorem search_framed (f rest : Str) (hf : ¬ EOM <:+: f) :
    search (f ++ EOM ++ rest) EOM = f.length := by
  induction f with
  | nil => simp [search, EOM, List.isPrefixOf]
  | cons a f ih =>
    have h1 := EOM_not_isPrefixOf_cons a f rest hf
    have h2 := ih (not_infix_tail a f hf)
    simp only [List.cons_append, List.append_assoc] at h1 h2 ⊢
    simp [search, h1, h2]

/-- In a string free of the delimiter, `search` returns the end of the string. -/
theorem search_free (r : Str) (hr : ¬ EOM <:+: r) : search r EOM = r.length := by
  induction r with
  | nil => rfl
  | cons a r ih =>
    have h1 : EOM.isPrefixOf (a :: r) = false := by
      by_cases h : EOM.isPrefixOf (a :: r) = true
      · exact absurd (List.isPrefixOf_iff_prefix.mp h).isInfix hr
      · exact Bool.eq_false_iff.mpr h
    simp [search, h1, ih (not_infix_tail a r hr)]

theorem wireStream_cons (m : Str) (ms : List Str) :
    wireStream (m :: ms) = m ++ EOM ++ wireStream ms := by
  simp [wireStream]

theorem wireStream_append (xs ys : List Str) :
    wireStream (xs ++ ys) = wireStream xs ++ wireStream ys := by
  simp [wireStream]

/-- The loop of `split` on a framed stream followed by a fragment `r` free of the
delimiter: the non-empty messages in order, then `r` if it is not empty. -/
theorem splitLoop_wireStream (msgs : List Str) (r : Str)
    (hmsgs : ∀ m ∈ msgs, ¬ EOM <:+: m) (hr : ¬ EOM <:+: r) :
    ∀ fuel, (wireStream msgs ++ r).length < fuel →
      splitLoop EOM false fuel (wireStream msgs ++ r) =
        msgs.filter (fun m => !m.isEmpty) ++ (if r.isEmpty then [] else [r]) := by
  induction msgs with
  | nil =>
    intro fuel hfuel
    cases fuel with
    | zero => omega
    | succ n =>
      cases r with
      | nil => simp [splitLoop, wireStream, search]
      | cons a r =>
        have hs := search_free (a :: r) hr
        simp only [wireStream, List.map_nil, List.flatten_nil, List.nil_append] at hs ⊢
        simp [splitLoop, hs]
  | cons m ms ih =>
    intro fuel hfuel
    cases fuel with
    | zero => omega
    | succ n =>
      have hm : ¬ EOM <:+: m := hmsgs m (List.mem_cons_self _ _)
      have hms : ∀ m' ∈ ms, ¬ EOM <:+: m' := fun m' h => hmsgs m' (List.mem_cons_of_mem _ h)
      have heq : wireStream (m :: ms) ++ r = m ++ EOM ++ (wireStream ms ++ r) := by
        simp [wireStream_cons]
      have hs : search (wireStream (m :: ms) ++ r) EOM = m.length := by
        rw [heq]; exact search_framed m _ hm
      have hlen : (wireStream (m :: ms) ++ r).length =
          m.length + 3 + (wireStream ms ++ r).length := by
        rw [heq]; simp [EOM]; omega
      have hdrop : (wireStream (m :: ms) ++ r).drop (m.length + EOM.length) =
          wireStream ms ++ r := by
        rw [heq]
        have : m.length + EOM.length = (m ++ EOM).length := by simp
        rw [this, List.drop_left]
      have htake : (wireStream (m :: ms) ++ r).take m.length = m := by
        rw [heq, List.append_assoc, List.take_left]
      have hrec := ih hms n (by omega)
      have hne : m.length ≠ (wireStream (m :: ms) ++ r).length := by omega
      rw [splitLoop]
      simp only [hs, hdrop, htake, hrec, if_neg hne]
      cases m <;> simp

/-- `split` on a framed stream followed by a fragment free of the delimiter. -/
theorem split_wireStream (msgs : List Str) (r : Str)
    (hmsgs : ∀ m ∈ msgs, ¬ EOM <:+: m) (hr : ¬ EOM <:+: r) :
    split (wireStream msgs ++ r) EOM =
      msgs.filter (fun m => !m.isEmpty) ++ (if r.isEmpty then [] else [r]) := by
  have h := splitLoop_wireStream msgs r hmsgs hr ((wireStream msgs ++ r).length + 1)
    (Nat.lt_succ_self _)
  simpa [split, EOM] using h

theorem ends_with_append_EOM (body : Str) : ends_with (body ++ EOM) EOM = true := by
  simp [ends_with, EOM]

theorem ends_with_iff_suffix (value ending : Str) :
    ends_with value ending = true ↔ ending <:+ value := by
  unfold ends_with
  split
  · rename_i hlen
    simp only [Bool.false_eq_true, false_iff]
    intro hsuf
    have := hsuf.length_le
    omega
  · rw [List.isPrefixOf_iff_prefix, List.reverse_prefix]

theorem ends_with_wireStream (msgs : List Str) (h : msgs ≠ []) :
    ends_with (wireStream msgs) EOM = true := by
  rw [← List.dropLast_append_getLast h, wireStream_append]
  have : wireStream [msgs.getLast h] = msgs.getLast h ++ EOM := by simp [wireStream]
  rw [this, ← List.append_assoc]
  exact ends_with_append_EOM _

theorem wireStream_eq_nil_or_suffix (msgs : List Str) :
    wireStream msgs = [] ∨ EOM <:+ wireStream msgs := by
  by_cases h : msgs = []
  · left
    subst h
    rfl
  · right
    exact (ends_with_iff_suffix _ _).mp (ends_with_wireStream msgs h)

/-- A non-empty fragment free of the delimiter, put after nothing or after a string that
ends with the delimiter, gives a string that does not end with the delimiter. -/
theorem not_suffix_append_fragment (x r : Str) (hr0 : r ≠ []) (hr : ¬ EOM <:+: r)
    (hx : x = [] ∨ EOM <:+ x) : ¬ EOM <:+ (x ++ r) := by
  rintro ⟨t, ht⟩
  rcases List.append_eq_append_iff.mp ht with ⟨a', hxa, hea⟩ | ⟨c', _, hrc⟩
  · -- the delimiter would start inside `x`
    have hx' : EOM <:+ x := by
      rcases hx with hx | hx
      · subst hx
        have ha' : a' = [] := by
          have := congrArg List.length hxa
          simp at this
          exact List.eq_nil_of_length_eq_zero (by omega)
        subst ha'
        exact absurd ⟨[], [], by simpa using hea⟩ hr
      · exact hx
    obtain ⟨u, hu⟩ := hx'
    rcases a' with _ | ⟨p, _ | ⟨q, _ | ⟨s, a'⟩⟩⟩
    · exact hr ⟨[], [], by simpa using hea⟩
    · simp only [EOM, List.cons_append, List.nil_append, List.cons.injEq] at hea
      obtain ⟨hp, _⟩ := hea
      subst hp
      have h2 : (u ++ ['\n', '\n']) ++ ['x'] = t ++ ['\n'] := by
        rw [← hxa, ← hu]
        simp [EOM]
      have := (List.append_inj' h2 rfl).2
      simp at this
    · simp only [EOM, List.cons_append, List.nil_append, List.cons.injEq] at hea
      obtain ⟨hp, hq, _⟩ := hea
      subst hp hq
      have h2 : (u ++ ['\n']) ++ ['\n', 'x'] = t ++ ['\n', '\n'] := by
        rw [← hxa, ← hu]
        simp [EOM]
      have := (List.append_inj' h2 rfl).2
      simp at this
    · simp only [EOM, List.cons_append, List.cons.injEq] at hea
      obtain ⟨_, _, _, hnil⟩ := hea
      have : r = [] := by
        have := congrArg List.length hnil
        simp at this
        exact List.eq_nil_of_length_eq_zero (by omega)
      exact hr0 this
  · exact hr ⟨c', [], by simpa using hrc.symm⟩

theorem find_ne_zero_of_search (s str : Str) (h : search s str ≠ 0) : find s str ≠ some 0 := by
  unfold find
  split
  · intro h0
    exact h (Option.some.inj h0)
  · exact fun h0 => Option.noConfusion h0

/-! ## Words and the printing of received messages -/

/-- A string with a character other than the blank has at least one word. -/
theorem splitLoop_blank_ne_nil (s : Str) (hs : ∃ ch ∈ s, ch ≠ ' ') :
    ∀ fuel, s.length < fuel → splitLoop " ".toList false fuel s ≠ [] := by
  induction s with
  | nil => simp at hs
  | cons a s ih =>
    intro fuel hfuel
    cases fuel with
    | zero => omega
    | succ n =>
      by_cases ha : a = ' '
      · subst ha
        have hs' : ∃ ch ∈ s, ch ≠ ' ' := by
          obtain ⟨ch, hmem, hne⟩ := hs
          rcases List.mem_cons.mp hmem with rfl | hmem
          · exact absurd rfl hne
          · exact ⟨ch, hmem, hne⟩
        have hrec := ih hs' n (by simp at hfuel; omega)
        simpa [splitLoop, search, List.isPrefixOf] using hrec
      · have hsearch : search (a :: s) " ".toList = search s " ".toList + 1 := by
          have : (' ' == a) = false := beq_eq_false_iff_ne.mpr (fun h => ha h.symm)
          simp [search, List.isPrefixOf, this]
        rw [splitLoop]
        simp only [hsearch, List.take_succ_cons]
        split <;> simp

theorem split_blank_ne_nil (s : Str) (hs : ∃ ch ∈ s, ch ≠ ' ') : split s " ".toList ≠ [] := by
  have h := splitLoop_blank_ne_nil s hs (s.length + 1) (Nat.lt_succ_self _)
  simpa [split] using h

/-- For a message with at least one word, `print_received_message` prints the line
`Topic: <first word> Data: <second word>` when the first word is in the topic set and
reports `WRONG_TOPIC` otherwise; the client is unchanged. -/
theorem print_received_message_of_words (c : Client) (msg topic : Str) (rest : List Str)
    (h : split msg " ".toList = topic :: rest) :
    print_received_message c msg =
      some ([if topic ∈ c.m_topics then
              Output.text ("Topic: ".toList ++ topic ++ " Data: ".toList ++ rest.headD [] ++
                "\n".toList)
            else print_error Errors.WRONG_TOPIC], c) := by
  unfold print_received_message
  simp only [h]
  cases rest <;> by_cases ht : topic ∈ c.m_topics <;> simp [ht]

theorem print_received_message_of_nonblank (c : Client) (msg : Str)
    (h : ∃ ch ∈ msg, ch ≠ ' ') :
    print_received_message c msg = some ([delivery c.m_topics msg], c) := by
  cases hw : split msg " ".toList with
  | nil => exact absurd hw (split_blank_ne_nil msg h)
  | cons topic rest =>
    rw [print_received_message_of_words c msg topic rest hw]
    have hw' : split msg [' '] = topic :: rest := hw
    cases rest <;> simp [delivery, topicOf, dataOf, hw']

theorem print_messages_of_nonblank (c : Client) (msgs : List Str)
    (h : ∀ f ∈ msgs, ∃ ch ∈ f, ch ≠ ' ') :
    print_messages c msgs = some (msgs.map (delivery c.m_topics), c) := by
  induction msgs with
  | nil => rfl
  | cons f fs ih =>
    have hf := h f (List.mem_cons_self _ _)
    have hne : f ≠ [] := by
      rintro rfl
      simp at hf
    have hfs := ih (fun g hg => h g (List.mem_cons_of_mem _ hg))
    simp [print_messages, hne, print_received_message_of_nonblank c f hf, hfs]

/-- With the topic set `news`, the message `news hello` is printed as
`Topic: news Data: hello` and the message `weather cold` is reported as `WRONG_TOPIC`. -/
theorem print_received_message_scenario :
    (print_received_message (mkClient true {"news".toList} [] [] [] [])
        "news hello".toList).map (fun r => r.1) =
      some [Output.text "Topic: news Data: hello\n".toList] ∧
    (print_received_message (mkClient true {"news".toList} [] [] [] [])
        "weather cold".toList).map (fun r => r.1) =
      some [print_error Errors.WRONG_TOPIC] := by
  decide

/-! ## One pass of `process_message_chunk` -/

/-- One pass of `process_message_chunk`, called from `connect_restore`, on an empty receive
stream and a framed stream of messages that each have a word: every message is replayed,
and the receive stream is empty afterwards. -/
theorem process_message_chunk_wireStream (c : Client) (msgs : List Str)
    (hstream : c.m_receive_stream = []) (hne : msgs ≠ [])
    (hfree : ∀ f ∈ msgs, ¬ EOM <:+: f) (hword : ∀ f ∈ msgs, ∃ ch ∈ f, ch ≠ ' ') :
    process_message_chunk c (wireStream msgs) true =
      some (msgs.map (delivery c.m_topics), c) := by
  have hnonempty : ∀ f ∈ msgs, f ≠ [] := by
    intro f hf h0
    subst h0
    simpa using hword [] hf
  have hsplit : split (wireStream msgs) EOM = msgs := by
    have h := split_wireStream msgs [] hfree (by decide)
    rw [List.append_nil] at h
    rw [h]
    simp only [List.isEmpty_nil, if_true, List.append_nil]
    rw [List.filter_eq_self]
    intro f hf
    cases hfe : f with
    | nil => exact absurd hfe (hnonempty f hf)
    | cons a l => rfl
  have hfind : find (wireStream msgs) EOM ≠ some 0 := by
    cases msgs with
    | nil => exact absurd rfl hne
    | cons f fs =>
      apply find_ne_zero_of_search
      rw [wireStream_cons, search_framed f _ (hfree f (List.mem_cons_self _ _))]
      have := hnonempty f (List.mem_cons_self _ _)
      cases f with
      | nil => exact absurd rfl this
      | cons a l => simp
  have hc : ({ c with m_receive_stream := [] } : Client) = c := by
    cases c
    simp only [Client.mk.injEq, true_and] at hstream ⊢
    exact hstream.symm
  unfold process_message_chunk
  simp only [hstream, List.nil_append, hfind, ne_eq, not_false_eq_true, if_true, hsplit,
    ends_with_wireStream msgs hne, hc, print_messages_of_nonblank c msgs hword]
  simp

/-- One pass of `process_message_chunk` when the receive stream followed by the incoming
bytes is not empty and does not begin with the delimiter. Written as framed messages
`msgs` followed by a fragment `r` free of the delimiter, the pass shows the non-empty
messages in order and leaves `r` in the receive stream. -/
theorem process_message_chunk_pass (c : Client) (n : Str) (msgs : List Str) (r : Str)
    (from_restore : Bool)
    (hstream : c.m_receive_stream ++ n = wireStream msgs ++ r)
    (hfree : ∀ m ∈ msgs, ¬ EOM <:+: m) (hr : ¬ EOM <:+: r)
    (hstart : msgs.head? ≠ some []) (hne : c.m_receive_stream ++ n ≠ [])
    (hword : ∀ m ∈ msgs, m ≠ [] → ∃ ch ∈ m, ch ≠ ' ') :
    process_message_chunk c n from_restore =
      some ((if from_restore then [] else [Output.text "\n".toList]) ++
          (msgs.filter (fun m => !m.isEmpty)).map (delivery c.m_topics) ++
          (if from_restore then [] else [Output.text "Enter command or (-h): ".toList]),
        { c with m_receive_stream := r }) := by
  have hfind : find (wireStream msgs ++ r) EOM ≠ some 0 := by
    apply find_ne_zero_of_search
    cases msgs with
    | nil =>
      have hr0 : r ≠ [] := by
        intro h0
        apply hne
        rw [hstream, h0]
        rfl
      have : wireStream [] ++ r = r := rfl
      rw [this, search_free r hr]
      cases r with
      | nil => exact absurd rfl hr0
      | cons a l => simp
    | cons m ms =>
      rw [wireStream_cons, List.append_assoc,
        search_framed m _ (hfree m (List.mem_cons_self _ _))]
      cases m with
      | nil => simp at hstart
      | cons a l => simp
  have hsplit := split_wireStream msgs r hfree hr
  have hprint : print_messages { c with m_receive_stream := r }
      (msgs.filter (fun m => !m.isEmpty)) =
      some ((msgs.filter (fun m => !m.isEmpty)).map (delivery c.m_topics),
        { c with m_receive_stream := r }) := by
    apply print_messages_of_nonblank
    intro f hf
    obtain ⟨hmem, hnonempty⟩ := List.mem_filter.mp hf
    apply hword f hmem
    intro h0
    subst h0
    simp at hnonempty
  unfold process_message_chunk
  simp only [hstream, hfind, ne_eq, not_false_eq_true, if_true, hsplit]
  by_cases hr0 : r = []
  · subst hr0
    have hmsgs : msgs ≠ [] := by
      intro h0
      apply hne
      rw [hstream, h0]
      rfl
    have hend : ends_with (wireStream msgs) EOM = true := ends_with_wireStream msgs hmsgs
    simp only [List.append_nil, hend, if_true, List.isEmpty_nil, hprint]
  · have hend : ends_with (wireStream msgs ++ r) EOM = false := by
      rw [Bool.eq_false_iff, ne_eq, ends_with_iff_suffix]
      exact not_suffix_append_fragment _ r hr0 hr (wireStream_eq_nil_or_suffix msgs)
    have hre : r.isEmpty = false := by
      cases r with
      | nil => exact absurd rfl hr0
      | cons a l => rfl
    simp [hend, hre, hprint]

/-! ## Connect -/

theorem connect_args_check_true_iff (c : Client) (out : List Output) :
    connect_args_check c = some (true, out) ↔
      out = [] ∧ c.m_arg1.all Char.isDigit = true ∧
      (∃ port, stoi c.m_arg1 = some port ∧ 1024 ≤ port ∧ port ≤ 65535) ∧
      1 ≤ c.m_arg2.length ∧ c.m_arg2.length ≤ MAX_NAME_LEN := by
  unfold connect_args_check
  by_cases hd : c.m_arg1.all Char.isDigit = true
  · cases hs : stoi c.m_arg1 with
    | none => simp [hd]
    | some port =>
      by_cases hp : port < 1024 ∨ port > 65535
      · have : ¬ (1024 ≤ port ∧ port ≤ 65535) := by omega
        simp [hd, hp, this]
      · have hp' : 1024 ≤ port ∧ port ≤ 65535 := by omega
        by_cases hn : c.m_arg2 = [] ∨ c.m_arg2.length > MAX_NAME_LEN
        · have : ¬ (1 ≤ c.m_arg2.length ∧ c.m_arg2.length ≤ MAX_NAME_LEN) := by
            rcases hn with hn | hn
            · simp [hn]
            · omega
          simp [hd, hp, hn, this]
        · have hn' : 1 ≤ c.m_arg2.length ∧ c.m_arg2.length ≤ MAX_NAME_LEN := by
            rw [not_or] at hn
            refine ⟨?_, by omega⟩
            cases h : c.m_arg2 with
            | nil => exact absurd h hn.1
            | cons a l => simp
          simp [hd, hp, hn, hp', hn']
  · simp [hd]

/-- After a `CONNECT` that passes `connect_args_check` and is answered with a response
that begins with `OK`, the client is connected with an empty receive stream, and its topic
set is the one it had before. -/
theorem connect_server_ok (c : Client) (l_buffer : Str)
    (hargs : connect_args_check c = some (true, []))
    (hok : "OK".toList <+: l_buffer) :
    ∃ outs c', connect_server c (Handshake.response l_buffer) = some (outs, c') ∧
      c'.m_connected = true ∧ c'.m_receive_stream = [] ∧ c'.m_topics = c.m_topics := by
  obtain ⟨_, _, ⟨port, hport, _, _⟩, _, _⟩ := (connect_args_check_true_iff c []).mp hargs
  have hpre : "OK".toList.isPrefixOf l_buffer = true := List.isPrefixOf_iff_prefix.mpr hok
  simp only [connect_server, hargs, connect_accept, hport]
  rw [if_pos hpre]
  exact ⟨_, _, rfl, rfl, rfl, rfl⟩

theorem mem_foldl_insert (ws : List Str) (init : Finset Str) (t : Str) :
    t ∈ ws.foldl (fun s w => insert w s) init ↔ t ∈ init ∨ t ∈ ws := by
  induction ws generalizing init with
  | nil => simp
  | cons w ws ih =>
    simp only [List.foldl_cons, ih, Finset.mem_insert, List.mem_cons]
    tauto

/-- `connect_restore` on a response `RESTORED`, `f2`, `f3`, ... whose fields are each
followed by `EOM`, with `f2` not empty and every later field a message with a word: the
names in `f2` are inserted into the topic set, and every later field is replayed under the
resulting topic set. -/
theorem connect_restore_framed (c : Client) (port : Nat) (f2 : Str) (later : List Str)
    (hport : stoi c.m_arg1 = some port)
    (hf2 : f2 ≠ []) (hf2free : ¬ EOM <:+: f2)
    (hfree : ∀ f ∈ later, ¬ EOM <:+: f) (hword : ∀ f ∈ later, ∃ ch ∈ f, ch ≠ ' ') :
    ∃ c', connect_restore c ("RESTORED".toList ++ EOM ++ f2 ++ EOM ++ wireStream later) =
        some (print_info Infos.CONN_RESTORED :: later.map (delivery c'.m_topics), c') ∧
      c'.m_connected = true ∧ c'.m_receive_stream = [] ∧
      (∀ t, t ∈ c'.m_topics ↔ t ∈ c.m_topics ∨ t ∈ split f2 " ".toList) := by
  have hstr : "RESTORED".toList ++ EOM ++ f2 ++ EOM ++ wireStream later =
      wireStream ("RESTORED".toList :: f2 :: later) := by
    simp [wireStream]
  have hallfree : ∀ f ∈ "RESTORED".toList :: f2 :: later, ¬ EOM <:+: f := by
    intro f hf
    rcases List.mem_cons.mp hf with rfl | hf
    · decide
    · rcases List.mem_cons.mp hf with rfl | hf
      · exact hf2free
      · exact hfree f hf
  have hnonempty : ∀ f ∈ later, f ≠ [] := by
    intro f hf h0
    subst h0
    simpa using hword [] hf
  have hsplit : split (wireStream ("RESTORED".toList :: f2 :: later)) EOM =
      "RESTORED".toList :: f2 :: later := by
    have h := split_wireStream _ [] hallfree (by decide)
    rw [List.append_nil] at h
    rw [h]
    simp only [List.isEmpty_nil, if_true, List.append_nil]
    rw [List.filter_eq_self]
    intro f hf
    have hne : f ≠ [] := by
      rcases List.mem_cons.mp hf with rfl | hf
      · decide
      · rcases List.mem_cons.mp hf with rfl | hf
        · exact hf2
        · exact hnonempty f hf
    cases hfe : f with
    | nil => exact absurd hfe hne
    | cons a l => rfl
  have hdrop : (wireStream ("RESTORED".toList :: f2 :: later)).drop
      ("RESTORED".toList.length + f2.length + 2 * EOM.length) = wireStream later := by
    have hl : "RESTORED".toList.length + f2.length + 2 * EOM.length =
        ("RESTORED".toList ++ EOM ++ f2 ++ EOM).length := by
      simp only [List.length_append]
      omega
    rw [hl, ← hstr, List.drop_left]
  rw [hstr]
  refine ⟨{ c with m_server_port := port, m_name := c.m_arg2, m_connected := true,
                   m_receive_stream := [],
                   m_topics := (split f2 " ".toList).foldl (fun t w => insert w t) c.m_topics },
    ?_, rfl, rfl, fun t => mem_foldl_insert _ _ t⟩
  unfold connect_restore
  simp only [hport, hsplit]
  cases later with
  | nil => simp
  | cons f3 fs =>
    have hp := process_message_chunk_wireStream
      { c with m_server_port := port, m_name := c.m_arg2, m_connected := true,
               m_receive_stream := [],
               m_topics := (split f2 " ".toList).foldl (fun t w => insert w t) c.m_topics }
      (f3 :: fs) rfl (List.cons_ne_nil _ _) hfree hword
    simp only [List.length_cons, List.getD_cons_zero, List.getD_cons_succ] at hdrop ⊢
    simp only [show fs.length + 1 + 1 + 1 > 1 from by omega,
      show fs.length + 1 + 1 + 1 > 2 from by omega, if_true]
    rw [hdrop, hp]

/-- `connect_restore` on the response `RESTORED`, an empty topic field and nothing else:
connected, empty receive stream, topic set untouched. -/
theorem connect_restore_no_topics (c : Client) (port : Nat) (hport : stoi c.m_arg1 = some port) :
    ∃ c', connect_restore c ("RESTORED".toList ++ EOM ++ [] ++ EOM ++ wireStream []) =
        some ([print_info Infos.CONN_RESTORED], c') ∧
      c'.m_connected = true ∧ c'.m_receive_stream = [] ∧ c'.m_topics = c.m_topics := by
  have hsplit : split ("RESTORED".toList ++ EOM ++ [] ++ EOM ++ wireStream []) EOM =
      ["RESTORED".toList] := by decide
  refine ⟨{ c with m_server_port := port, m_name := c.m_arg2, m_connected := true,
                   m_receive_stream := [] }, ?_, rfl, rfl, rfl⟩
  unfold connect_restore
  simp only [hport, hsplit]
  simp

/-! ## Words: `split` on the blank, told with `takeWhile` and `dropWhile` -/

theorem search_blank (s : Str) :
    search s [' '] = (s.takeWhile (fun ch => ch != ' ')).length := by
  induction s with
  | nil => rfl
  | cons a s ih =>
    by_cases ha : a = ' '
    · subst ha
      simp [search, List.isPrefixOf]
    · have h1 : (' ' == a) = false := beq_eq_false_iff_ne.mpr (fun h => ha h.symm)
      have h2 : (a != ' ') = true := by simpa using ha
      simp [search, List.isPrefixOf, h1, List.takeWhile_cons, h2, ih]

theorem dropWhile_nonblank_cases (s : Str) :
    s.dropWhile (fun ch => ch != ' ') = [] ∨
      ∃ rest, s.dropWhile (fun ch => ch != ' ') = ' ' :: rest := by
  induction s with
  | nil => exact Or.inl rfl
  | cons a s ih =>
    by_cases ha : a = ' '
    · subst ha
      exact Or.inr ⟨s, by simp [List.dropWhile_cons]⟩
    · have h2 : (a != ' ') = true := by simpa using ha
      simpa [List.dropWhile_cons, h2] using ih

theorem split_blank_nil : split [] [' '] = [] := by decide

theorem split_blank_cons_blank (s : Str) : split (' ' :: s) [' '] = split s [' '] := by
  simp [split, splitLoop, search, List.isPrefixOf]

theorem split_blank_cons_word (a : Char) (s : Str) (ha : a ≠ ' ') :
    split (a :: s) [' '] =
      (a :: s.takeWhile (fun ch => ch != ' ')) :: split (s.dropWhile (fun ch => ch != ' ')) [' '] := by
  have h2 : (a != ' ') = true := by simpa using ha
  have hsearch : search (a :: s) [' '] = (s.takeWhile (fun ch => ch != ' ')).length + 1 := by
    rw [search_blank, List.takeWhile_cons, h2]
    rfl
  have hsplit := List.takeWhile_append_dropWhile (fun ch => ch != ' ') s
  have htake : s.take (s.takeWhile (fun ch => ch != ' ')).length =
      s.takeWhile (fun ch => ch != ' ') := by
    have h := congrArg (List.take (s.takeWhile (fun ch => ch != ' ')).length) hsplit
    rw [List.take_left] at h
    exact h.symm
  have hdrop : s.drop (s.takeWhile (fun ch => ch != ' ')).length =
      s.dropWhile (fun ch => ch != ' ') := by
    have h := congrArg (List.drop (s.takeWhile (fun ch => ch != ' ')).length) hsplit
    rw [List.drop_left] at h
    exact h.symm
  have hlen : s.length = (s.takeWhile (fun ch => ch != ' ')).length +
      (s.dropWhile (fun ch => ch != ' ')).length := by
    have h := congrArg List.length hsplit
    rw [List.length_append] at h
    exact h.symm
  have hunfold : split (a :: s) [' '] = splitLoop [' '] false (s.length + 1 + 1) (a :: s) := by
    simp [split]
  rw [hunfold, splitLoop]
  simp only [hsearch, List.take_succ_cons, htake, List.length_cons, List.length_singleton,
    List.drop_succ_cons]
  rcases dropWhile_nonblank_cases s with hnil | ⟨rest, hrest⟩
  · have hk : (s.takeWhile (fun ch => ch != ' ')).length = s.length := by
      rw [hnil] at hlen
      simpa using hlen.symm
    rw [hnil, split_blank_nil]
    simp [hk]
  · have hk : (s.takeWhile (fun ch => ch != ' ')).length + 1 ≠ s.length + 1 := by
      rw [hrest] at hlen
      simp at hlen
      omega
    have hd1 : s.drop ((s.takeWhile (fun ch => ch != ' ')).length + 1) = rest := by
      rw [← List.drop_drop, hdrop, hrest]
      rfl
    have hfuel : splitLoop [' '] false (s.length + 1) rest = split rest [' '] := by
      have hl : rest.length < s.length + 1 := by
        rw [hrest] at hlen
        simp at hlen
        omega
      rw [splitLoop_fuel [' '] false (by simp) (s.length + 1) rest hl]
      simp [split]
    simp only [List.length_nil, Nat.zero_add, List.drop_succ_cons, if_neg hk, hd1, hfuel,
      hrest, split_blank_cons_blank]
    simp

/-- `split(s, " ")` is empty when `s` has no word; otherwise it is the first word of `s`
followed by the words of what comes after it. -/
theorem split_blank_eq (s : Str) :
    split s [' '] =
      if s.dropWhile (fun ch => ch == ' ') = [] then []
      else firstWord s :: split (afterFirstWord s) [' '] := by
  induction s with
  | nil => rfl
  | cons a s ih =>
    by_cases ha : a = ' '
    · subst ha
      rw [split_blank_cons_blank, ih]
      simp [firstWord, afterFirstWord, List.dropWhile_cons]
    · have h1 : (a == ' ') = false := beq_eq_false_iff_ne.mpr ha
      have h2 : (a != ' ') = true := by simpa using ha
      rw [split_blank_cons_word a s ha]
      simp [firstWord, afterFirstWord, List.dropWhile_cons, List.takeWhile_cons, h1, h2]

theorem dropWhile_blank_eq_nil_iff (s : Str) :
    s.dropWhile (fun ch => ch == ' ') = [] ↔ ∀ ch ∈ s, ch = ' ' := by
  induction s with
  | nil => simp
  | cons a s ih =>
    by_cases ha : a = ' '
    · subst ha
      simp [List.dropWhile_cons, ih]
    · have h1 : (a == ' ') = false := beq_eq_false_iff_ne.mpr ha
      simp [List.dropWhile_cons, h1, ha]

/-- `split(s, " ")` returns no word exactly when `s` consists of blanks only (the empty
string included). -/
theorem split_blank_eq_nil_iff (s : Str) : split s [' '] = [] ↔ ∀ ch ∈ s, ch = ' ' := by
  rw [split_blank_eq, ← dropWhile_blank_eq_nil_iff]
  by_cases h : s.dropWhile (fun ch => ch == ' ') = []
  · simp [h]
  · simp [h]

theorem topicOf_eq_firstWord (s : Str) : topicOf s = firstWord s := by
  have h := split_blank_eq s
  unfold topicOf
  have hl : " ".toList = [' '] := rfl
  rw [hl, h]
  split
  · rename_i h0
    simp [firstWord, h0]
  · simp

theorem dataOf_eq_secondWord (s : Str) : dataOf s = secondWord s := by
  have h := split_blank_eq s
  have ht := topicOf_eq_firstWord (afterFirstWord s)
  unfold topicOf at ht
  unfold dataOf
  have hl : " ".toList = [' '] := rfl
  rw [hl] at ht ⊢
  rw [h]
  split
  · rename_i h0
    simp [secondWord, afterFirstWord, firstWord, h0]
  · simp only [List.getD_cons_succ]
    rw [secondWord, ← ht]
    cases split (afterFirstWord s) [' '] <;> simp

theorem takeWhile_dropWhile_word (t d : Str) (ht : ' ' ∉ t) :
    (t ++ ' ' :: d).takeWhile (fun ch => ch != ' ') = t ∧
    (t ++ ' ' :: d).dropWhile (fun ch => ch != ' ') = ' ' :: d := by
  induction t with
  | nil => simp [List.takeWhile_cons, List.dropWhile_cons]
  | cons a t ih =>
    have ha : a ≠ ' ' := fun h => ht (h ▸ List.mem_cons_self _ _)
    have h2 : (a != ' ') = true := by simpa using ha
    obtain ⟨ih1, ih2⟩ := ih (fun h => ht (List.mem_cons_of_mem _ h))
    simp [List.takeWhile_cons, List.dropWhile_cons, h2, ih1, ih2]

theorem firstWord_of_no_blank (d : Str) (hd : ' ' ∉ d) : firstWord d = d := by
  have h1 : d.dropWhile (fun ch => ch == ' ') = d := by
    cases d with
    | nil => rfl
    | cons a d =>
      have ha : a ≠ ' ' := fun h => hd (h ▸ List.mem_cons_self _ _)
      simp [List.dropWhile_cons, ha]
  have h2 : d.takeWhile (fun ch => ch != ' ') = d := by
    rw [List.takeWhile_eq_self_iff]
    intro ch hch
    have : ch ≠ ' ' := fun h => hd (h ▸ hch)
    simpa using this
  rw [firstWord, h1, h2]

/-- The first and second word of a message `topic ++ " " ++ data`, for a non-empty topic
without blanks: the topic, and the first word of the data (all of it when the data has no
blank). -/
theorem words_of_topic_data (topic data : Str) (h0 : topic ≠ []) (ht : ' ' ∉ topic) :
    firstWord (topic ++ ' ' :: data) = topic ∧
    secondWord (topic ++ ' ' :: data) = firstWord data ∧
    (' ' ∉ data → secondWord (topic ++ ' ' :: data) = data) := by
  obtain ⟨h1, h2⟩ := takeWhile_dropWhile_word topic data ht
  have hdrop : (topic ++ ' ' :: data).dropWhile (fun ch => ch == ' ') = topic ++ ' ' :: data := by
    cases topic with
    | nil => exact absurd rfl h0
    | cons a t =>
      have ha : a ≠ ' ' := fun h => ht (h ▸ List.mem_cons_self _ _)
      simp [List.dropWhile_cons, ha]
  have hfirst : firstWord (topic ++ ' ' :: data) = topic := by
    rw [firstWord, hdrop, h1]
  have hsecond : secondWord (topic ++ ' ' :: data) = firstWord data := by
    rw [secondWord, afterFirstWord, hdrop, h2]
    simp [firstWord, List.dropWhile_cons]
  exact ⟨hfirst, hsecond, fun hd => by rw [hsecond, firstWord_of_no_blank data hd]⟩

/-! ## A receive stream that begins with the delimiter -/

theorem find_eq_zero_of_EOM_head (s : Str) (h : EOM <+: s) : find s EOM = some 0 := by
  obtain ⟨t, rfl⟩ := h
  simp [find, search, EOM, List.isPrefixOf]

theorem process_message_chunk_of_EOM_head (c : Client) (n : Str) (from_restore : Bool)
    (h : EOM <+: c.m_receive_stream ++ n) :
    process_message_chunk c n from_restore =
      some ([], { c with m_receive_stream := c.m_receive_stream ++ n }) := by
  unfold process_message_chunk
  simp [find_eq_zero_of_EOM_head _ h]

theorem feed_of_EOM_head (chunks : List Str) : ∀ c : Client, EOM <+: c.m_receive_stream →
    feed c chunks =
      some ([], { c with m_receive_stream := c.m_receive_stream ++ chunks.flatten }) := by
  induction chunks with
  | nil =>
    intro c _
    simp [feed]
  | cons chunk chunks ih =>
    intro c h
    have h1 : EOM <+: c.m_receive_stream ++ chunk := h.trans (List.prefix_append _ _)
    have h2 := ih { c with m_receive_stream := c.m_receive_stream ++ chunk } h1
    simp only [feed, process_message_chunk_of_EOM_head c chunk false h1, h2]
    simp

/-! ## `process_message_chunk` and its framing part -/

theorem print_messages_filter (l : List Str) : ∀ c : Client,
    print_messages c (l.filter (fun m => !m.isEmpty)) = print_messages c l := by
  induction l with
  | nil => intro c; rfl
  | cons m l ih =>
    intro c
    cases m with
    | nil => simpa [print_messages] using ih c
    | cons a m =>
      simp only [List.filter_cons, List.isEmpty_cons, Bool.not_false, if_true, print_messages,
        reduceCtorEq, if_false]
      cases print_received_message c (a :: m) with
      | none => rfl
      | some r =>
        obtain ⟨out, c'⟩ := r
        simp only [ih c']

/-- How `process_message_chunk` is made of its framing part: when the position test lets
the pass run, the messages of `frame_chunk` are printed one after another between a
newline and the prompt; otherwise nothing is printed. In both cases the receive stream
afterwards is the one of `frame_chunk`. -/
theorem process_message_chunk_frames (c : Client) (n : Str) (from_restore : Bool) :
    process_message_chunk c n from_restore =
      match frame_chunk c.m_receive_stream n with
      | none => none
      | some (stream', msgs) =>
        if find (c.m_receive_stream ++ n) EOM ≠ some 0 then
          match print_messages { c with m_receive_stream := stream' } msgs with
          | none => none
          | some (outs, c') =>
            some ((if from_restore then [] else [Output.text "\n".toList]) ++ outs ++
              (if from_restore then [] else [Output.text "Enter command or (-h): ".toList]), c')
        else some ([], { c with m_receive_stream := stream' }) := by
  unfold process_message_chunk frame_chunk
  by_cases hfind : find (c.m_receive_stream ++ n) EOM = some 0
  · simp [hfind]
  · simp only [ne_eq, hfind, not_false_eq_true, if_true]
    by_cases hend : ends_with (c.m_receive_stream ++ n) EOM = true
    · simp only [hend, if_true, print_messages_filter]
    · simp only [hend, Bool.false_eq_true, if_false]
      cases (split (c.m_receive_stream ++ n) EOM).getLast? with
      | none => rfl
      | some last => simp only [print_messages_filter]

/-- One pass of the framing part when the receive stream followed by the incoming bytes is
not empty and does not begin with the delimiter: written as framed messages `msgs`
followed by a fragment `r` free of the delimiter, the pass hands over the non-empty
messages in order and leaves `r` in the receive stream. -/
theorem frame_chunk_pass (b n : Str) (msgs : List Str) (r : Str)
    (hstream : b ++ n = wireStream msgs ++ r)
    (hfree : ∀ m ∈ msgs, ¬ EOM <:+: m) (hr : ¬ EOM <:+: r)
    (hstart : msgs.head? ≠ some []) (hne : b ++ n ≠ []) :
    frame_chunk b n = some (r, msgs.filter (fun m => !m.isEmpty)) := by
  have hfind : find (wireStream msgs ++ r) EOM ≠ some 0 := by
    apply find_ne_zero_of_search
    cases msgs with
    | nil =>
      have hr0 : r ≠ [] := by
        intro h0
        apply hne
        rw [hstream, h0]
        rfl
      have : wireStream [] ++ r = r := rfl
      rw [this, search_free r hr]
      cases r with
      | nil => exact absurd rfl hr0
      | cons a l => simp
    | cons m ms =>
      rw [wireStream_cons, List.append_assoc,
        search_framed m _ (hfree m (List.mem_cons_self _ _))]
      cases m with
      | nil => simp at hstart
      | cons a l => simp
  have hsplit := split_wireStream msgs r hfree hr
  unfold frame_chunk
  simp only [hstream, hfind, ne_eq, not_false_eq_true, if_true, hsplit]
  by_cases hr0 : r = []
  · subst hr0
    have hmsgs : msgs ≠ [] := by
      intro h0
      apply hne
      rw [hstream, h0]
      rfl
    have hend : ends_with (wireStream msgs) EOM = true := ends_with_wireStream msgs hmsgs
    simp [hend]
  · have hend : ends_with (wireStream msgs ++ r) EOM = false := by
      rw [Bool.eq_false_iff, ne_eq, ends_with_iff_suffix]
      exact not_suffix_append_fragment _ r hr0 hr (wireStream_eq_nil_or_suffix msgs)
    have hre : r.isEmpty = false := by
      cases r with
      | nil => exact absurd rfl hr0
      | cons a l => rfl
    simp [hend, hre]

/-! ## Cutting a framed stream into chunks -/

theorem search_le_of_occurrence (u w : Str) : search (u ++ EOM ++ w) EOM ≤ u.length := by
  induction u with
  | nil => simp [search, EOM, List.isPrefixOf]
  | cons a u ih =>
    show search (a :: (u ++ EOM ++ w)) EOM ≤ u.length + 1
    rw [search]
    split <;> omega

/-- A proper beginning of `m ++ EOM`, for `m` free of the delimiter, is free of the
delimiter: the delimiter cannot overlap itself. -/
theorem proper_prefix_free (m s rest : Str) (hm : ¬ EOM <:+: m) (h : m ++ EOM = s ++ rest)
    (hrest : rest ≠ []) : ¬ EOM <:+: s := by
  rintro ⟨u, v, huv⟩
  have h1 : m ++ EOM ++ [] = u ++ EOM ++ (v ++ rest) := by
    rw [List.append_nil, h, ← huv]
    simp
  have h2 : search (m ++ EOM ++ []) EOM = m.length := search_framed m [] hm
  have h3 : search (u ++ EOM ++ (v ++ rest)) EOM ≤ u.length := search_le_of_occurrence u _
  rw [← h1, h2] at h3
  have h4 := congrArg List.length h1
  simp only [List.length_append, List.length_nil] at h4
  have h5 : 0 < rest.length := List.length_pos.mpr hrest
  omega

/-- A beginning `s` of a framed stream is some of the framed messages followed by a
fragment free of the delimiter, and what is left of the stream continues that fragment into
the other framed messages. -/
theorem wireStream_cut (msgs : List Str) (hfree : ∀ m ∈ msgs, ¬ EOM <:+: m) :
    ∀ s rest : Str, s ++ rest = wireStream msgs →
      ∃ (before after : List Str) (r : Str), msgs = before ++ after ∧
        s = wireStream before ++ r ∧ r ++ rest = wireStream after ∧ ¬ EOM <:+: r := by
  induction msgs with
  | nil =>
    intro s rest h
    have h' : s ++ rest = [] := h
    obtain ⟨hs, hrest⟩ := List.append_eq_nil.mp h'
    subst hs hrest
    exact ⟨[], [], [], rfl, rfl, rfl, by decide⟩
  | cons m ms ih =>
    intro s rest h
    have hm : ¬ EOM <:+: m := hfree m (List.mem_cons_self _ _)
    have hms : ∀ m' ∈ ms, ¬ EOM <:+: m' := fun m' h' => hfree m' (List.mem_cons_of_mem _ h')
    rw [wireStream_cons] at h
    rcases List.append_eq_append_iff.mp h with ⟨a', h1, h2⟩ | ⟨c', h1, h2⟩
    · by_cases ha : a' = []
      · subst ha
        rw [List.append_nil] at h1
        rw [List.nil_append] at h2
        refine ⟨[m], ms, [], rfl, ?_, ?_, by decide⟩
        · rw [← h1]
          simp [wireStream]
        · rw [h2]
          rfl
      · refine ⟨[], m :: ms, s, rfl, rfl, ?_, proper_prefix_free m s a' hm h1 ha⟩
        rw [wireStream_cons, h2, ← List.append_assoc, ← h1]
    · obtain ⟨before, after, r, hsplit, hs, hr, hfr⟩ := ih hms c' rest h2.symm
      refine ⟨m :: before, after, r, by rw [hsplit]; rfl, ?_, hr, hfr⟩
      rw [h1, hs, wireStream_cons]
      simp

/-- The framing round trip, from any receive stream free of the delimiter: if the stream
followed by the chunks is the framed stream of non-empty messages free of the delimiter,
and no chunk is empty, then the passes hand over exactly these messages, in order, and the
receive stream is empty at the end. -/
theorem feed_frames_wireStream (chunks : List Str) : ∀ (b : Str) (msgs : List Str),
    (∀ m ∈ msgs, m ≠ [] ∧ ¬ EOM <:+: m) → (∀ chunk ∈ chunks, chunk ≠ []) →
    ¬ EOM <:+: b → b ++ chunks.flatten = wireStream msgs →
    feed_frames b chunks = some ([], msgs) := by
  induction chunks with
  | nil =>
    intro b msgs _ _ hb h
    simp only [List.flatten_nil, List.append_nil] at h
    cases msgs with
    | nil =>
      have : b = [] := h
      subst this
      rfl
    | cons m ms =>
      exfalso
      apply hb
      rw [h, wireStream_cons]
      exact ⟨m, wireStream ms, rfl⟩
  | cons chunk chunks ih =>
    intro b msgs hmsgs hchunks hb h
    have hfree : ∀ m ∈ msgs, ¬ EOM <:+: m := fun m hm => (hmsgs m hm).2
    have h' : (b ++ chunk) ++ chunks.flatten = wireStream msgs := by
      rw [← h]
      simp
    obtain ⟨before, after, r, hsplit, hs, hr, hfr⟩ :=
      wireStream_cut msgs hfree (b ++ chunk) chunks.flatten h'
    subst hsplit
    have hbefore : ∀ m ∈ before, m ≠ [] ∧ ¬ EOM <:+: m :=
      fun m hm => hmsgs m (List.mem_append_left _ hm)
    have hafter : ∀ m ∈ after, m ≠ [] ∧ ¬ EOM <:+: m :=
      fun m hm => hmsgs m (List.mem_append_right _ hm)
    have hstart : before.head? ≠ some [] := by
      cases before with
      | nil => simp
      | cons m ms =>
        intro h0
        simp only [List.head?_cons, Option.some.injEq] at h0
        exact (hbefore m (List.mem_cons_self _ _)).1 h0
    have hne : b ++ chunk ≠ [] := by
      intro h0
      exact hchunks chunk (List.mem_cons_self _ _) (List.append_eq_nil.mp h0).2
    have hfilter : before.filter (fun m => !m.isEmpty) = before := by
      rw [List.filter_eq_self]
      intro m hm
      cases hme : m with
      | nil => exact absurd hme (hbefore m hm).1
      | cons a l => rfl
    have hpass := frame_chunk_pass b chunk before r hs (fun m hm => (hbefore m hm).2) hfr
      hstart hne
    rw [hfilter] at hpass
    have hrec := ih r after hafter (fun ch hch => hchunks ch (List.mem_cons_of_mem _ hch)) hfr hr
    simp only [feed_frames, hpass, hrec]

/-! ## From the framing part to what `feed` prints -/

theorem deliveries_append (xs ys : List Output) :
    deliveries (xs ++ ys) = deliveries xs ++ deliveries ys := by
  simp [deliveries]

theorem deliveries_map_delivery (topics : Finset Str) (msgs : List Str) :
    deliveries (msgs.map (delivery topics)) = msgs.map (delivery topics) := by
  unfold deliveries
  rw [List.filter_eq_self]
  intro o ho
  obtain ⟨m, _, rfl⟩ := List.mem_map.mp ho
  unfold delivery
  split <;> simp [print_error]

theorem deliveries_of_pass (topics : Finset Str) (msgs : List Str) :
    deliveries ([Output.text "\n".toList] ++ msgs.map (delivery topics) ++
      [Output.text "Enter command or (-h): ".toList]) = msgs.map (delivery topics) := by
  rw [deliveries_append, deliveries_append, deliveries_map_delivery]
  simp [deliveries]

theorem frame_chunk_of_find_zero (b n : Str) (h : find (b ++ n) EOM = some 0) :
    frame_chunk b n = some (b ++ n, []) := by
  simp [frame_chunk, h]

/-- What `feed` prints and leaves, from its framing part, when every message handed over has
a character other than the blank. -/
theorem feed_of_feed_frames (chunks : List Str) : ∀ (c : Client) (stream' : Str)
    (msgs : List Str), feed_frames c.m_receive_stream chunks = some (stream', msgs) →
    (∀ m ∈ msgs, ∃ ch ∈ m, ch ≠ ' ') →
    ∃ outs, feed c chunks = some (outs, { c with m_receive_stream := stream' }) ∧
      deliveries outs = msgs.map (delivery c.m_topics) := by
  induction chunks with
  | nil =>
    intro c stream' msgs h _
    simp only [feed_frames, Option.some.injEq, Prod.mk.injEq] at h
    obtain ⟨h1, h2⟩ := h
    subst h1 h2
    exact ⟨[], rfl, rfl⟩
  | cons chunk chunks ih =>
    intro c stream' msgs h hword
    simp only [feed_frames] at h
    cases hf : frame_chunk c.m_receive_stream chunk with
    | none => simp [hf] at h
    | some r1 =>
      obtain ⟨s1, ms1⟩ := r1
      simp only [hf] at h
      cases hff : feed_frames s1 chunks with
      | none => simp [hff] at h
      | some r2 =>
        obtain ⟨s2, ms2⟩ := r2
        simp only [hff, Option.some.injEq, Prod.mk.injEq] at h
        obtain ⟨h1, h2⟩ := h
        subst h1 h2
        have hw1 : ∀ m ∈ ms1, ∃ ch ∈ m, ch ≠ ' ' :=
          fun m hm => hword m (List.mem_append_left _ hm)
        have hw2 : ∀ m ∈ ms2, ∃ ch ∈ m, ch ≠ ' ' :=
          fun m hm => hword m (List.mem_append_right _ hm)
        obtain ⟨outs2, hfeed2, hdel2⟩ :=
          ih { c with m_receive_stream := s1 } s2 ms2 hff hw2
        have hpass := process_message_chunk_frames c chunk false
        rw [hf] at hpass
        by_cases hfind : find (c.m_receive_stream ++ chunk) EOM = some 0
        · have hms1 : ms1 = [] := by
            have := frame_chunk_of_find_zero c.m_receive_stream chunk hfind
            rw [hf] at this
            simp only [Option.some.injEq, Prod.mk.injEq] at this
            exact this.2
          subst hms1
          simp only [hfind, ne_eq, not_true_eq_false, if_false] at hpass
          refine ⟨[] ++ outs2, ?_, ?_⟩
          · simp only [feed, hpass, hfeed2]
          · simpa using hdel2
        · simp only [ne_eq, hfind, not_false_eq_true, if_true,
            print_messages_of_nonblank _ ms1 hw1, Bool.false_eq_true, if_false] at hpass
          refine ⟨([Output.text "\n".toList] ++ ms1.map (delivery c.m_topics) ++
            [Output.text "Enter command or (-h): ".toList]) ++ outs2, ?_, ?_⟩
          · simp only [feed, hpass, hfeed2]
          · rw [deliveries_append, deliveries_of_pass, hdel2, List.map_append]

/-! ## Lines of one and of two words -/

theorem split_blank_word (t : Str) (h0 : t ≠ []) (ht : ' ' ∉ t) : split t [' '] = [t] := by
  have hdrop : t.dropWhile (fun ch => ch == ' ') ≠ [] := by
    rw [ne_eq, dropWhile_blank_eq_nil_iff]
    intro hall
    cases t with
    | nil => exact h0 rfl
    | cons a l => exact ht (hall a (List.mem_cons_self _ _) ▸ List.mem_cons_self _ _)
  have hafter : afterFirstWord t = [] := by
    have h1 : t.dropWhile (fun ch => ch == ' ') = t := by
      cases t with
      | nil => rfl
      | cons a l =>
        have ha : a ≠ ' ' := fun h => ht (h ▸ List.mem_cons_self _ _)
        simp [List.dropWhile_cons, ha]
    rw [afterFirstWord, h1, List.dropWhile_eq_nil_iff]
    intro ch hch
    have : ch ≠ ' ' := fun h => ht (h ▸ hch)
    simpa using this
  rw [split_blank_eq, if_neg hdrop, firstWord_of_no_blank t ht, hafter, split_blank_nil]

theorem split_blank_two_words (w t : Str) (hw0 : w ≠ []) (hw : ' ' ∉ w) (ht0 : t ≠ [])
    (ht : ' ' ∉ t) : split (w ++ ' ' :: t) [' '] = [w, t] := by
  have hdrop : (w ++ ' ' :: t).dropWhile (fun ch => ch == ' ') ≠ [] := by
    rw [ne_eq, dropWhile_blank_eq_nil_iff]
    intro hall
    cases w with
    | nil => exact hw0 rfl
    | cons a l =>
      exact hw (hall a (by simp) ▸ List.mem_cons_self _ _)
  have hafter : afterFirstWord (w ++ ' ' :: t) = ' ' :: t := by
    have h1 : (w ++ ' ' :: t).dropWhile (fun ch => ch == ' ') = w ++ ' ' :: t := by
      cases w with
      | nil => exact absurd rfl hw0
      | cons a l =>
        have ha : a ≠ ' ' := fun h => hw (h ▸ List.mem_cons_self _ _)
        simp [List.dropWhile_cons, ha]
    rw [afterFirstWord, h1, (takeWhile_dropWhile_word w t hw).2]
  rw [split_blank_eq, if_neg hdrop, (words_of_topic_data w t hw0 hw).1, hafter,
    split_blank_cons_blank, split_blank_word t ht0 ht]

/-- Every call of `command_parse` is undefined: the empty line fails the assertion, a line
of blanks has no `list[0]`, and every other line reaches `toUpper`. -/
theorem command_parse_undefined (c : Client) (input : Str) : command_parse c input = none := by
  unfold command_parse
  split
  · rfl
  · cases split input " ".toList <;> rfl

/-! ## Restore and round trip: what holds -/

/-- `connect_restore` for a client whose topic set is empty, on a response `RESTORED`,
`f2`, `f3`, ... whose fields are each followed by `EOM`, with `f2` not empty unless no
field follows it and every later field a message with a word: the topic set becomes
exactly the blank-separated names of `f2`, and every later field is replayed in order. -/
theorem connect_restore_from_no_topics (c : Client) (port : Nat) (f2 : Str)
    (later : List Str)
    (hport : stoi c.m_arg1 = some port) (htopics : c.m_topics = ∅)
    (hf2 : f2 ≠ [] ∨ later = []) (hf2free : ¬ EOM <:+: f2)
    (hfree : ∀ f ∈ later, ¬ EOM <:+: f) (hword : ∀ f ∈ later, ∃ ch ∈ f, ch ≠ ' ') :
    ∃ c', connect_restore c ("RESTORED".toList ++ EOM ++ f2 ++ EOM ++ wireStream later) =
        some (print_info Infos.CONN_RESTORED :: later.map (delivery c'.m_topics), c') ∧
      c'.m_connected = true ∧ c'.m_receive_stream = [] ∧
      (∀ t, t ∈ c'.m_topics ↔ t ∈ split f2 " ".toList) := by
  by_cases hne : f2 = []
  · have hl : later = [] := hf2.resolve_left (fun h => h hne)
    subst hne hl
    obtain ⟨c', h1, h2, h3, h4⟩ := connect_restore_no_topics c port hport
    refine ⟨c', h1, h2, h3, fun t => ?_⟩
    have hs : split [] " ".toList = [] := by decide
    rw [h4, htopics, hs]
    simp
  · obtain ⟨c', h1, h2, h3, h4⟩ :=
      connect_restore_framed c port f2 later hport hne hf2free hfree hword
    refine ⟨c', h1, h2, h3, fun t => ?_⟩
    rw [h4 t, htopics]
    simp

/-- The response `RESTORED`, `news sports`, `news breaking`, given to a client without
topics, restores the topics `news` and `sports` and prints exactly
`Topic: news Data: breaking`. -/
theorem connect_restore_scenario :
    (connect_restore (mkClient false ∅ [] [] "5000".toList "alice".toList)
        "RESTORED\n\nxnews sports\n\nxnews breaking\n\nx".toList).map
      (fun r => (r.1, r.2.m_topics)) =
      some ([print_info Infos.CONN_RESTORED, Output.text "Topic: news Data: breaking\n".toList],
        {"sports".toList, "news".toList}) :=
  rfl

/-- The framing round trip. For every list of non-empty messages free of the delimiter
`EOM`, and every cutting of the stream `m1 ++ EOM ++ ... ++ mk ++ EOM` into non-empty
chunks, the framing part of the passes, from an empty receive buffer, hands exactly
`m1, ..., mk` to `print_received_message`, in order and each once, and leaves an empty
receive buffer. When every message has a character other than the blank, so that
`print_received_message` has a result for it, `feed` prints the delivery of
`m1, ..., mk` in order, and the client afterwards has an empty receive buffer and is
otherwise unchanged. -/
theorem framing_round_trip (msgs chunks : List Str)
    (hmsgs : ∀ m ∈ msgs, m ≠ [] ∧ ¬ EOM <:+: m) (hchunks : ∀ chunk ∈ chunks, chunk ≠ [])
    (hcut : chunks.flatten = wireStream msgs) :
    feed_frames [] chunks = some ([], msgs) ∧
    ∀ c : Client, c.m_receive_stream = [] → (∀ m ∈ msgs, ∃ ch ∈ m, ch ≠ ' ') →
      ∃ outs, feed c chunks = some (outs, { c with m_receive_stream := [] }) ∧
        deliveries outs = msgs.map (delivery c.m_topics) := by
  have hframes : feed_frames [] chunks = some ([], msgs) :=
    feed_frames_wireStream chunks [] msgs hmsgs hchunks (by decide) (by simpa using hcut)
  refine ⟨hframes, fun c hc hword => ?_⟩
  have h : feed_frames c.m_receive_stream chunks = some ([], msgs) := by
    rw [hc]
    exact hframes
  exact feed_of_feed_frames chunks c [] msgs h hword

/-- The messages `a` and `bc`, sent as `a\n\nxbc\n\nx` and cut into the chunks `a\n`,
`\nxb` and `c\n\nx`. -/
theorem framing_round_trip_scenario :
    feed_frames [] ["a\n".toList, "\nxb".toList, "c\n\nx".toList] =
      some ([], ["a".toList, "bc".toList]) ∧
    (feed (mkClient true {"a".toList} [] [] [] [])
        ["a\n".toList, "\nxb".toList, "c\n\nx".toList]).map
      (fun r => (deliveries r.1, r.2.m_receive_stream)) =
      some ([Output.text "Topic: a Data: \n".toList, print_error Errors.WRONG_TOPIC], []) :=
  ⟨(framing_round_trip ["a".toList, "bc".toList]
      ["a\n".toList, "\nxb".toList, "c\n\nx".toList] (by decide) (by decide) (by decide)).1,
    by decide⟩

/-! ## The claims -/

/-- C1, as the claim states it, fails for the message of length `L = 0`: the queue holding
the single empty message is emptied by one call, which returns the one chunk `EOM`, while
`ceil(0 / 1021) = 0`. -/
theorem C1_empty_message_counterexample :
    (mkClient true ∅ [[]] [] [] []).m_out_messages = [[]] ∧
    (sendAll 1 (mkClient true ∅ [[]] [] [] [])).1 = [EOM] ∧
    (sendAll 1 (mkClient true ∅ [[]] [] [] [])).2.m_out_messages = [] ∧
    (sendAll 1 (mkClient true ∅ [[]] [] [] [])).1.length ≠ (([] : Str).length + 1020) / 1021 := by
  decide

/-- C1, amended: for a queue holding a single outbound message `m` of length `L`, calling
`get_send_chunk` until the queue is empty (any `fuel` of at least the number of chunks
allows it) empties the queue and returns `ceil(L / 1021)` chunks when `L ≥ 1` and one
chunk when `L = 0`; every chunk is its body followed by `EOM`, no body is longer than
`maxChunk = BUFFER_SIZE - length(EOM) = 1021`, and the bodies concatenated in order are
`m`. For a message of 5014 bytes, such as `PUBLISH topic ` followed by 5000 data bytes,
there are 5 chunks, with bodies of 1021, 1021, 1021, 1021 and 930 bytes. -/
theorem C1_chunks_of_single_message (c : Client) (m : Str) (fuel : Nat)
    (hq : c.m_out_messages = [m]) (hfuel : (m.length + 1020) / 1021 ≤ fuel)
    (hpos : 1 ≤ fuel) :
    BUFFER_SIZE - EOM.length = 1021 ∧
    (sendAll fuel c).2.m_out_messages = [] ∧
    (sendAll fuel c).1.length = (if m.length = 0 then 1 else (m.length + 1020) / 1021) ∧
    ((sendAll fuel c).1.map chunkBody).flatten = m ∧
    (∀ chunk ∈ (sendAll fuel c).1,
      chunk = chunkBody chunk ++ EOM ∧ (chunkBody chunk).length ≤ 1021) ∧
    (∀ data : Str, data.length = 5000 → m = "PUBLISH topic ".toList ++ data →
      (sendAll fuel c).1.map (fun chunk => (chunkBody chunk).length) =
        [1021, 1021, 1021, 1021, 930]) := by
  obtain ⟨h1, h2, h3, h4⟩ := sendAll_single fuel c m hq hfuel hpos
  refine ⟨by decide, by rw [h1], ?_, h3, h4, ?_⟩
  · rw [h2]
    split <;> omega
  · intro data hdata hm
    have hlen : m.length = 5014 := by
      rw [hm, List.length_append, hdata]
      rfl
    exact sendAll_5014 fuel c m hq hlen (by omega)

/-- Witness of C1 on the queue `["abc"]`. -/
theorem C1_chunks_of_single_message_witness :
    (sendAll 1 (mkClient true ∅ ["abc".toList] [] [] [])).2.m_out_messages = [] ∧
    (sendAll 1 (mkClient true ∅ ["abc".toList] [] [] [])).1.length = 1 ∧
    ((sendAll 1 (mkClient true ∅ ["abc".toList] [] [] [])).1.map chunkBody).flatten =
      "abc".toList :=
  have h := C1_chunks_of_single_message (mkClient true ∅ ["abc".toList] [] [] [])
    "abc".toList 1 rfl (by decide) (by decide)
  ⟨h.2.1, h.2.2.1, h.2.2.2.1⟩

/-- C2: the delimiter-free messages `a`, the empty message and `b`, sent as one stream
and cut in two ways. Fed in one piece, the stream delivers `a` and `b` and leaves an empty
receive buffer. Cut after the first delimiter, it delivers only `a`: the second piece
begins with `EOM`, so `m_receive_stream.find(EOM)` is `0`, the pass is skipped, and the
piece stays in the receive buffer. -/
theorem C2_delivery_depends_on_cut :
    (∀ m ∈ ["a".toList, [], "b".toList], ¬ EOM <:+: m) ∧
    ["a\n\nx\n\nxb\n\nx".toList].flatten = wireStream ["a".toList, [], "b".toList] ∧
    ["a\n\nx".toList, "\n\nxb\n\nx".toList].flatten = wireStream ["a".toList, [], "b".toList] ∧
    (feed (mkClient true {"a".toList, "b".toList} [] [] [] [])
        ["a\n\nx\n\nxb\n\nx".toList]).map (fun r => (r.1, r.2.m_receive_stream)) =
      some ([Output.text "\n".toList, Output.text "Topic: a Data: \n".toList,
             Output.text "Topic: b Data: \n".toList,
             Output.text "Enter command or (-h): ".toList], []) ∧
    (feed (mkClient true {"a".toList, "b".toList} [] [] [] [])
        ["a\n\nx".toList, "\n\nxb\n\nx".toList]).map (fun r => (r.1, r.2.m_receive_stream)) =
      some ([Output.text "\n".toList, Output.text "Topic: a Data: \n".toList,
             Output.text "Enter command or (-h): ".toList], "\n\nxb\n\nx".toList) := by
  decide

/-- C3: one pass on the empty receive buffer and the incoming bytes `EOM ++ "a" ++ EOM`.
The bytes hold the complete message `a` (`split` finds it, and they end with `EOM`), but
the pass delivers nothing and the receive buffer afterwards is the whole input, delimiters
and complete message included. -/
theorem C3_leading_delimiter_blocks_pass :
    split ([] ++ "\n\nxa\n\nx".toList) EOM = ["a".toList] ∧
    ends_with ([] ++ "\n\nxa\n\nx".toList) EOM = true ∧
    (process_message_chunk (mkClient true {"a".toList} [] [] [] []) "\n\nxa\n\nx".toList
        false).map (fun r => (r.1, r.2.m_receive_stream)) =
      some ([], "\n\nxa\n\nx".toList) := by
  decide

/-- C4: on a non-empty queue `get_send_chunk` does one of two things. A front entry longer
than `maxChunk = 1021` is cut: the chunk body is its first 1021 bytes, the front entry
becomes its remaining bytes, the number of entries and all other entries stay, and `last`
is false. Otherwise the chunk body is the whole front entry, the entry is removed, the
other entries stay, and `last` is true exactly when the queue is empty afterwards. In both
cases nothing but the queue changes. -/
theorem C4_get_send_chunk_cases (c : Client) (front : Str) (rest : List Str)
    (h : c.m_out_messages = front :: rest) :
    BUFFER_SIZE - EOM.length = 1021 ∧
    (1021 < front.length →
      ∃ chunk c', get_send_chunk c = some (chunk, false, c') ∧
        chunk = chunkBody chunk ++ EOM ∧
        chunkBody chunk = front.take 1021 ∧
        c'.m_out_messages = front.drop 1021 :: rest ∧
        c'.m_out_messages.length = c.m_out_messages.length ∧
        c' = { c with m_out_messages := c'.m_out_messages }) ∧
    (front.length ≤ 1021 →
      ∃ chunk last c', get_send_chunk c = some (chunk, last, c') ∧
        chunk = chunkBody chunk ++ EOM ∧
        chunkBody chunk = front ∧
        c'.m_out_messages = rest ∧
        (last = true ↔ c'.m_out_messages = []) ∧
        c' = { c with m_out_messages := c'.m_out_messages }) := by
  refine ⟨by decide, ?_, ?_⟩
  · intro hlen
    refine ⟨front.take 1021 ++ EOM, { c with m_out_messages := front.drop 1021 :: rest }, ?_⟩
    have hgt : front.length > BUFFER_SIZE - EOM.length := by
      simpa [BUFFER_SIZE, EOM] using hlen
    simp [get_send_chunk, h, hgt, chunkBody_append_EOM]
    simp [BUFFER_SIZE, EOM]
  · intro hlen
    refine ⟨front ++ EOM, decide (rest.length = 0), { c with m_out_messages := rest }, ?_⟩
    have hle : ¬ front.length > BUFFER_SIZE - EOM.length := by
      simpa [BUFFER_SIZE, EOM] using hlen
    simp [get_send_chunk, h, hle, chunkBody_append_EOM]

/-- Witness of C4 on the queue `["ab", "c"]`. -/
theorem C4_get_send_chunk_cases_witness :
    BUFFER_SIZE - EOM.length = 1021 ∧
    (1021 < "ab".toList.length →
      ∃ chunk c', get_send_chunk (mkClient true ∅ ["ab".toList, "c".toList] [] [] []) =
          some (chunk, false, c') ∧
        chunk = chunkBody chunk ++ EOM ∧
        chunkBody chunk = "ab".toList.take 1021 ∧
        c'.m_out_messages = "ab".toList.drop 1021 :: ["c".toList] ∧
        c'.m_out_messages.length =
          (mkClient true ∅ ["ab".toList, "c".toList] [] [] []).m_out_messages.length ∧
        c' = { mkClient true ∅ ["ab".toList, "c".toList] [] [] [] with
                m_out_messages := c'.m_out_messages }) ∧
    ("ab".toList.length ≤ 1021 →
      ∃ chunk last c', get_send_chunk (mkClient true ∅ ["ab".toList, "c".toList] [] [] []) =
          some (chunk, last, c') ∧
        chunk = chunkBody chunk ++ EOM ∧
        chunkBody chunk = "ab".toList ∧
        c'.m_out_messages = ["c".toList] ∧
        (last = true ↔ c'.m_out_messages = []) ∧
        c' = { mkClient true ∅ ["ab".toList, "c".toList] [] [] [] with
                m_out_messages := c'.m_out_messages }) :=
  C4_get_send_chunk_cases (mkClient true ∅ ["ab".toList, "c".toList] [] [] [])
    "ab".toList ["c".toList] rfl

/-- C5: every chunk `get_send_chunk` returns on a non-empty queue, a non-final fragment of
an over-length message included, ends with the 3-character delimiter `EOM`; its length is
at most `BUFFER_SIZE = 1024` and its body is at most 1021 characters long. -/
theorem C5_chunk_delimited_and_bounded (c : Client) (h : c.m_out_messages ≠ []) :
    ∃ chunk last c', get_send_chunk c = some (chunk, last, c') ∧
      EOM <:+ chunk ∧ EOM.length = 3 ∧ ends_with chunk EOM = true ∧
      chunk.length ≤ BUFFER_SIZE ∧ BUFFER_SIZE = 1024 ∧ (chunkBody chunk).length ≤ 1021 := by
  have hsuf : ∀ body : Str, ends_with (body ++ EOM) EOM = true := by
    intro body
    simp [ends_with, EOM]
  cases hq : c.m_out_messages with
  | nil => exact absurd hq h
  | cons front rest =>
    by_cases hlen : front.length > BUFFER_SIZE - EOM.length
    · refine ⟨front.take (BUFFER_SIZE - EOM.length) ++ EOM, false,
        { c with m_out_messages := front.drop (BUFFER_SIZE - EOM.length) :: rest }, ?_⟩
      simp only [get_send_chunk, hq, hlen, if_true, chunkBody_append_EOM, hsuf, true_and]
      refine ⟨List.suffix_append _ _, by decide, ?_, by decide, ?_⟩ <;>
        simp [BUFFER_SIZE, EOM]
    · refine ⟨front ++ EOM, decide (rest.length = 0), { c with m_out_messages := rest }, ?_⟩
      simp only [get_send_chunk, hq, hlen, if_false, chunkBody_append_EOM, hsuf, true_and]
      refine ⟨List.suffix_append _ _, by decide, ?_, by decide, ?_⟩ <;>
        simp [BUFFER_SIZE, EOM] at hlen ⊢ <;> omega

/-- Witness of C5 on the queue `["ab"]`. -/
theorem C5_chunk_delimited_and_bounded_witness :
    ∃ chunk last c', get_send_chunk (mkClient true ∅ ["ab".toList] [] [] []) =
        some (chunk, last, c') ∧
      EOM <:+ chunk ∧ EOM.length = 3 ∧ ends_with chunk EOM = true ∧
      chunk.length ≤ BUFFER_SIZE ∧ BUFFER_SIZE = 1024 ∧ (chunkBody chunk).length ≤ 1021 :=
  C5_chunk_delimited_and_bounded (mkClient true ∅ ["ab".toList] [] [] []) (by decide)

/-- C6, as the claim states it, fails: on an empty queue `get_send_chunk` is not a no-op
that leaves an empty queue, it has no result at all (it reads `m_out_messages[0]`). -/
theorem C6_empty_queue_counterexample :
    (mkClient true ∅ [] [] [] []).m_out_messages = [] ∧
    ¬ ∃ r, get_send_chunk (mkClient true ∅ [] [] [] []) = some r := by
  refine ⟨rfl, ?_⟩
  rintro ⟨r, hr⟩
  have : get_send_chunk (mkClient true ∅ [] [] [] []) = none := rfl
  rw [this] at hr
  exact Option.noConfusion hr

/-- C6, amended: `get_send_chunk` has a result exactly when the outbound queue is not
empty; on an empty queue it reads the front of an empty deque and returns nothing. -/
theorem C6_get_send_chunk_defined_iff (c : Client) :
    (get_send_chunk c = none ↔ c.m_out_messages = []) ∧
    ((∃ r, get_send_chunk c = some r) ↔ c.m_out_messages ≠ []) := by
  have key : get_send_chunk c = none ↔ c.m_out_messages = [] := by
    unfold get_send_chunk
    cases h : c.m_out_messages with
    | nil => simp
    | cons front rest =>
      simp only [reduceCtorEq, iff_false]
      split <;> simp
  refine ⟨key, ?_, ?_⟩
  · rintro ⟨r, hr⟩ hq
    rw [key.mpr hq] at hr
    exact Option.noConfusion hr
  · intro hq
    cases hg : get_send_chunk c with
    | none => exact absurd (key.mp hg) hq
    | some r => exact ⟨r, rfl⟩

/-- C7: `connect_args_check` at three argument pairs the claim says are rejected. The port
`1024` is accepted (the test is `l_port < 1024`, while the `WRONG_PORT` text and the claim
ask for `1024 < port`), and for an empty port string and for a port string too long for
an `int` the function does not return at all, because `stoi` throws. -/
theorem C7_port_1024_accepted_and_stoi_throws :
    connect_args_check (mkClient false ∅ [] [] "1024".toList "alice".toList) = some (true, []) ∧
    connect_args_check (mkClient false ∅ [] [] "".toList "alice".toList) = none ∧
    connect_args_check (mkClient false ∅ [] [] "99999999999".toList "alice".toList) = none := by
  decide

/-- C8: a `CONNECT 5000 alice` answered with `OK` from a disconnected client that still
holds the topic `news` and receive stream `junk` (as after a lost connection): the client
is connected and its receive stream is empty, but the topic set is still `news`, not
empty. -/
theorem C8_connect_ok_keeps_stale_topics :
    (connect_server
        (mkClient false {"news".toList} [] "junk".toList "5000".toList "alice".toList)
        (Handshake.response ("OK".toList ++ EOM))).map
      (fun r => (r.2.m_connected, r.2.m_receive_stream, r.2.m_topics)) =
    some (true, [], {"news".toList}) := by
  decide

/-- C9: `connect_restore` at two responses of the claim's form. With an empty topic field
followed by the message `news breaking`, `split` drops the empty field, so
`l_msg_list[1]` is the message and not the second field: the topic set becomes `news`,
`breaking` instead of empty, and nothing is replayed. And for a client that still holds
the topic `news` (as after a lost connection) the response with the topic field `sports`
gives the topic set `sports`, `news`, not exactly the names of the field:
`connect_restore` only inserts into `m_topics`. -/
theorem C9_restore_empty_field_and_stale_topics :
    (connect_restore (mkClient false ∅ [] [] "5000".toList "alice".toList)
        ("RESTORED".toList ++ EOM ++ [] ++ EOM ++ wireStream ["news breaking".toList])).map
      (fun r => (r.1, r.2.m_topics, r.2.m_receive_stream)) =
      some ([print_info Infos.CONN_RESTORED], {"breaking".toList, "news".toList}, []) ∧
    (connect_restore (mkClient false {"news".toList} [] [] "5000".toList "alice".toList)
        ("RESTORED".toList ++ EOM ++ "sports".toList ++ EOM ++ wireStream [])).map
      (fun r => (r.1, r.2.m_topics, r.2.m_receive_stream)) =
      some ([print_info Infos.CONN_RESTORED], {"sports".toList, "news".toList}, []) ∧
    "news".toList ∈ ({"sports".toList, "news".toList} : Finset Str) ∧
    "news".toList ∉ split "sports".toList " ".toList :=
  ⟨rfl, rfl, by decide, by decide⟩

/-- C10: for a message that consists of blanks only, `split(msg, " ")` returns no word, and
`print_received_message` reads `word_list[0]` of an empty vector: it neither prints the
message nor reports `WRONG_TOPIC`. -/
theorem C10_blank_message_has_no_result :
    split " ".toList " ".toList = [] ∧
    ∀ c : Client, print_received_message c " ".toList = none :=
  ⟨by decide, fun _ => rfl⟩

/-- C11, as the claim states it, fails: the message `news breaking story` under the topic
set `news` is shown with the data `breaking`, the second word only, not with
`breaking story`. -/
theorem C11_data_is_second_word_counterexample :
    (print_received_message (mkClient true {"news".toList} [] [] [] [])
        "news breaking story".toList).map (fun r => r.1) =
      some [Output.text "Topic: news Data: breaking\n".toList] ∧
    "Topic: news Data: breaking\n".toList ≠ "Topic: news Data: breaking story\n".toList := by
  decide

/-- C11, amended: for every complete inbound message with a character other than the
blank, `print_received_message` takes the first blank-separated word as the topic and the
second blank-separated word as the data (empty when there is none), and shows
`Topic: <topic> Data: <data>` when the topic is in the topic set and `WRONG_TOPIC`
otherwise. For a message `topic ++ " " ++ data` with a non-empty topic free of blanks the
topic is `topic` and the data is the first word of `data`: all of `data` when it has no
blank, while words after the first are not shown. -/
theorem C11_topic_and_data_are_first_two_words (c : Client) (msg : Str)
    (h : ∃ ch ∈ msg, ch ≠ ' ') :
    print_received_message c msg =
      some ([if firstWord msg ∈ c.m_topics then
               Output.text ("Topic: ".toList ++ firstWord msg ++ " Data: ".toList ++
                 secondWord msg ++ "\n".toList)
             else print_error Errors.WRONG_TOPIC], c) ∧
    (∀ topic data : Str, topic ≠ [] → ' ' ∉ topic → msg = topic ++ ' ' :: data →
      firstWord msg = topic ∧ secondWord msg = firstWord data ∧
      (' ' ∉ data → secondWord msg = data)) := by
  refine ⟨?_, ?_⟩
  · rw [print_received_message_of_nonblank c msg h, delivery, topicOf_eq_firstWord,
      dataOf_eq_secondWord]
  · intro topic data h0 ht hmsg
    rw [hmsg]
    exact words_of_topic_data topic data h0 ht

/-- Witness of C11 on the message `news hello` under the topic set `news`. -/
theorem C11_topic_and_data_are_first_two_words_witness :
    (∃ ch ∈ "news hello".toList, ch ≠ ' ') ∧
    print_received_message (mkClient true {"news".toList} [] [] [] []) "news hello".toList =
      some ([if firstWord "news hello".toList ∈
                (mkClient true {"news".toList} [] [] [] []).m_topics then
               Output.text ("Topic: ".toList ++ firstWord "news hello".toList ++
                 " Data: ".toList ++ secondWord "news hello".toList ++ "\n".toList)
             else print_error Errors.WRONG_TOPIC],
        mkClient true {"news".toList} [] [] [] []) ∧
    firstWord "news hello".toList = "news".toList ∧
    secondWord "news hello".toList = "hello".toList :=
  ⟨by decide,
    (C11_topic_and_data_are_first_two_words (mkClient true {"news".toList} [] [] [] [])
      "news hello".toList (by decide)).1,
    by decide, by decide⟩

/-- C12: from the claim's initial state (Disconnected, no topics), `connect_server`
answered `OK` and `command_subscribe` for the topic `news` give a Connected client with
the topic set `news`. When the server socket then reports an error (connection lost), and
likewise when the server closes the connection (`recv` returns nothing, `CONN_DOWN` is
printed) and the next `select` fails, the turn of `socket_loop` ends the loop with
`m_connected = false` and the topic `news` still in the topic set. For every client, the
turn of a lost connection and the turn of a failed `select` set `m_connected = false` and
leave `m_topics` as it is. -/
theorem C12_topics_survive_connection_loss :
    ((mkClient false ∅ [] [] "5000".toList "alice".toList).m_connected,
      (mkClient false ∅ [] [] "5000".toList "alice".toList).m_topics) = (false, ∅) ∧
    (connect_server (mkClient false ∅ [] [] "5000".toList "alice".toList)
        (Handshake.response ("OK".toList ++ EOM))).map
      (fun r => ((command_subscribe { r.2 with m_arg1 := "news".toList }).2.m_connected,
        (command_subscribe { r.2 with m_arg1 := "news".toList }).2.m_topics)) =
      some (true, {"news".toList}) ∧
    ((connect_server (mkClient false ∅ [] [] "5000".toList "alice".toList)
        (Handshake.response ("OK".toList ++ EOM))).bind
      (fun r => socket_loop_turn (command_subscribe { r.2 with m_arg1 := "news".toList }).2
        false { Ready.idle with server_error := true })).map
      (fun t => (t.client.m_connected, t.running, t.client.m_topics)) =
      some (false, false, {"news".toList}) ∧
    ((connect_server (mkClient false ∅ [] [] "5000".toList "alice".toList)
        (Handshake.response ("OK".toList ++ EOM))).bind
      (fun r =>
        (socket_loop_turn (command_subscribe { r.2 with m_arg1 := "news".toList }).2
          false { Ready.idle with server_msg := some [] }).bind
        (fun t => socket_loop_turn t.client t.l_writefds
          { Ready.idle with select_fails := true }))).map
      (fun t => (t.client.m_connected, t.running, t.client.m_topics)) =
      some (false, false, {"news".toList}) ∧
    ({"news".toList} : Finset Str).Nonempty ∧
    (∀ (c : Client) (l_writefds : Bool),
      (socket_loop_turn c l_writefds { Ready.idle with server_error := true }).map
        (fun t => (t.client.m_connected, t.running, t.client.m_topics)) =
        some (false, false, c.m_topics)) ∧
    (∀ (c : Client) (l_writefds : Bool),
      (socket_loop_turn c l_writefds { Ready.idle with select_fails := true }).map
        (fun t => (t.client.m_connected, t.running, t.client.m_topics)) =
        some (false, false, c.m_topics)) :=
  ⟨rfl, by decide, by decide, by decide, Finset.singleton_nonempty _, fun _ _ => rfl,
    fun _ _ => rfl⟩

/-- C13: for every client (Connected or not) whose argument `m_arg1` is a non-empty topic
`t`. `SUBSCRIBE t` with `t` in the topic set and `UNSUBSCRIBE t` with `t` not in it leave
the client as it is and send nothing. Otherwise `SUBSCRIBE t` makes the topic set
`topics ∪ {t}` and sends exactly `SUBSCRIBE t` on `m_msg_in_sock`, and `UNSUBSCRIBE t`
makes it `topics \ {t}` and sends exactly `UNSUBSCRIBE t`; nothing else changes and nothing
goes to `m_close_in_sock`. So a command is sent exactly when the topic set changes. -/
theorem C13_subscribe_unsubscribe (c : Client) (t : Str) (ht : t ≠ []) (harg : c.m_arg1 = t) :
    (t ∈ c.m_topics →
      (command_subscribe c).2 = c ∧ (command_subscribe c).1.msg_in = [] ∧
      (command_subscribe c).1.close_in = []) ∧
    (t ∉ c.m_topics →
      (command_subscribe c).2 = { c with m_topics := c.m_topics ∪ {t} } ∧
      (command_subscribe c).1.msg_in = ["SUBSCRIBE ".toList ++ t] ∧
      (command_subscribe c).1.close_in = []) ∧
    (t ∉ c.m_topics →
      (command_unsubscribe c).2 = c ∧ (command_unsubscribe c).1.msg_in = [] ∧
      (command_unsubscribe c).1.close_in = []) ∧
    (t ∈ c.m_topics →
      (command_unsubscribe c).2 = { c with m_topics := c.m_topics \ {t} } ∧
      (command_unsubscribe c).1.msg_in = ["UNSUBSCRIBE ".toList ++ t] ∧
      (command_unsubscribe c).1.close_in = []) ∧
    ((command_subscribe c).1.msg_in ≠ [] ↔ (command_subscribe c).2.m_topics ≠ c.m_topics) ∧
    ((command_unsubscribe c).1.msg_in ≠ [] ↔
      (command_unsubscribe c).2.m_topics ≠ c.m_topics) := by
  subst harg
  have hins : insert c.m_arg1 c.m_topics = c.m_topics ∪ {c.m_arg1} := by
    rw [Finset.union_comm]
    rfl
  have hers : c.m_topics.erase c.m_arg1 = c.m_topics \ {c.m_arg1} :=
    (Finset.sdiff_singleton_eq_erase _ _).symm
  by_cases hmem : c.m_arg1 ∈ c.m_topics
  · have hne : c.m_topics \ {c.m_arg1} ≠ c.m_topics := by
      intro h
      have : c.m_arg1 ∈ c.m_topics \ {c.m_arg1} := by
        rw [h]
        exact hmem
      simp at this
    refine ⟨fun _ => ?_, fun h => absurd hmem h, fun h => absurd hmem h, fun _ => ?_, ?_, ?_⟩
    · simp [command_subscribe, ht, hmem]
    · simp [command_unsubscribe, ht, hmem, hers]
    · simp [command_subscribe, ht, hmem]
    · simp [command_unsubscribe, ht, hmem, hers, hne]
  · have hne : c.m_topics ∪ {c.m_arg1} ≠ c.m_topics := by
      intro h
      apply hmem
      rw [← h]
      simp
    refine ⟨fun h => absurd h hmem, fun _ => ?_, fun _ => ?_, fun h => absurd h hmem, ?_, ?_⟩
    · simp [command_subscribe, ht, hmem, hins]
    · simp [command_unsubscribe, ht, hmem]
    · simp [command_subscribe, ht, hmem, hins, hne]
    · simp [command_unsubscribe, ht, hmem]

/-- Witness of C13: a Connected client with the topic set `news` and the argument
`sports`. -/
theorem C13_subscribe_unsubscribe_witness :
    (command_subscribe (mkClient true {"news".toList} [] [] "sports".toList [])).1.msg_in =
      ["SUBSCRIBE sports".toList] ∧
    (command_subscribe (mkClient true {"news".toList} [] [] "sports".toList [])).2.m_topics =
      {"news".toList} ∪ {"sports".toList} ∧
    (command_unsubscribe (mkClient true {"news".toList} [] [] "sports".toList [])).1.msg_in =
      [] :=
  have h := C13_subscribe_unsubscribe (mkClient true {"news".toList} [] [] "sports".toList [])
    "sports".toList (by decide) rfl
  ⟨(h.2.1 (by decide)).2.1, congrArg Client.m_topics (h.2.1 (by decide)).1,
    (h.2.2.1 (by decide)).2.1⟩

/-- C14: when the receive buffer followed by the incoming bytes begins with the delimiter
`EOM`, `process_message_chunk` prints nothing, delivers no message, and leaves the receive
buffer equal to the whole of buffer and bytes; the buffer then begins with the delimiter,
and whatever chunks the session feeds to it later, nothing is printed or delivered and the
chunks pile up in the buffer. -/
theorem C14_leading_delimiter_skips_every_pass (c : Client) (n : Str) (from_restore : Bool)
    (h : EOM <+: c.m_receive_stream ++ n) :
    process_message_chunk c n from_restore =
      some ([], { c with m_receive_stream := c.m_receive_stream ++ n }) ∧
    ∀ later : List Str,
      feed { c with m_receive_stream := c.m_receive_stream ++ n } later =
        some ([], { c with m_receive_stream := c.m_receive_stream ++ n ++ later.flatten }) :=
  ⟨process_message_chunk_of_EOM_head c n from_restore h,
    fun later => feed_of_EOM_head later { c with m_receive_stream := c.m_receive_stream ++ n } h⟩

/-- Witness of C14: the empty buffer and the bytes `EOM ++ "a" ++ EOM`, then two more
chunks. -/
theorem C14_leading_delimiter_skips_every_pass_witness :
    (process_message_chunk (mkClient true {"a".toList} [] [] [] []) "\n\nxa\n\nx".toList
        false).map (fun r => (r.1, r.2.m_receive_stream)) =
      some ([], "\n\nxa\n\nx".toList) ∧
    (feed { mkClient true {"a".toList} [] [] [] [] with
              m_receive_stream := [] ++ "\n\nxa\n\nx".toList }
        ["a\n\nx".toList, "a".toList]).map (fun r => (r.1, r.2.m_receive_stream)) =
      some ([], "\n\nxa\n\nxa\n\nxa".toList) :=
  have h := C14_leading_delimiter_skips_every_pass (mkClient true {"a".toList} [] [] [] [])
    "\n\nxa\n\nx".toList false (by decide)
  ⟨(congrArg (Option.map (fun r => (r.1, r.2.m_receive_stream))) h.1).trans rfl,
    (congrArg (Option.map (fun r => (r.1, r.2.m_receive_stream)))
      (h.2 ["a\n\nx".toList, "a".toList])).trans rfl⟩

/-- C15: the non-empty, delimiter-free message of one blank, sent as the single non-empty
chunk `" " ++ EOM` to a client with an empty receive buffer. The pass splits off the
message and empties the buffer (the framing part hands over exactly this message), but
`print_received_message` then reads `word_list[0]` of the empty word list, so feeding
the chunk to `process_message_chunk` has no result: the round trip is not completed. The
same happens when the message `a` follows: `a` is never printed. -/
theorem C15_blank_message_stops_the_round_trip :
    (∀ m ∈ [" ".toList], m ≠ [] ∧ ¬ EOM <:+: m) ∧
    (∀ chunk ∈ [" \n\nx".toList], chunk ≠ []) ∧
    [" \n\nx".toList].flatten = wireStream [" ".toList] ∧
    feed_frames [] [" \n\nx".toList] = some ([], [" ".toList]) ∧
    (∀ c : Client, c.m_receive_stream = [] →
      process_message_chunk c " \n\nx".toList false = none ∧ feed c [" \n\nx".toList] = none) ∧
    (∀ m ∈ [" ".toList, "a".toList], m ≠ [] ∧ ¬ EOM <:+: m) ∧
    [" \n\nxa\n\nx".toList].flatten = wireStream [" ".toList, "a".toList] ∧
    (∀ c : Client, c.m_receive_stream = [] → feed c [" \n\nxa\n\nx".toList] = none) := by
  refine ⟨by decide, by decide, by decide, by decide, ?_, by decide, by decide, ?_⟩
  · intro c hc
    have h : process_message_chunk c " \n\nx".toList false = none := by
      unfold process_message_chunk
      rw [hc]
      rfl
    exact ⟨h, by rw [feed, h]⟩
  · intro c hc
    have h : process_message_chunk c " \n\nxa\n\nx".toList false = none := by
      unfold process_message_chunk
      rw [hc]
      rfl
    rw [feed, h]

/-- C16: the non-empty string of one blank has no word: `split(" ", " ")` is empty, so
`command_parse` on the input line `" "` reads `list[0]` of an empty vector (the line
passes `assert(input != "")`), and so does `print_received_message` on that message. -/
theorem C16_blank_line_has_no_first_word :
    " ".toList ≠ [] ∧
    (split " ".toList " ".toList).length = 0 ∧
    (∀ c : Client, command_parse c " ".toList = none) ∧
    (∀ (c : Client) (net : Handshake), command_loop_turn c " ".toList net = none) ∧
    (∀ c : Client, (print_received_message c " ".toList).isNone = true) :=
  ⟨by decide, by decide, fun _ => rfl, fun _ _ => rfl, fun _ => rfl⟩

end PubSubX
